import Mathlib

/-!
Verification of the brix-lang runtime support library (src/runtime.c).

The embedding models:

* C `double` values by `F64`, an exact model of IEEE-754 binary64 numbers with
  round-to-nearest-even to 53 significant bits and an unbounded exponent
  (no overflow, underflow or NaN; on every value arising in this development
  the model coincides exactly with hardware binary64 arithmetic).  A value is
  a mantissa times a power of two, kept in canonical form (odd or zero
  mantissa), so structural equality is value equality.
* C `long` by `Int` (no wrap-around is exercised by any claim).
* heap records by Lean structures with the same fields, and the C heap by an
  association list from addresses to records; a nullable pointer is an
  `Option Nat`.  Releasing a record to ref_count zero removes it (and its
  owned buffer) from the heap.
* `exit(1)` after a diagnostic (the fatal error path) by `Except.error` with
  the diagnostic text; a NULL-returning fallible function by `Option`.
* buffers by `List`s; a read `p[i]` by `List.getD i` and a write by
  `List.set` (all reads and writes performed by the modelled code are
  in bounds when the record invariants hold).
-/

-- ==========================================
-- F64: exact binary64 model
-- ==========================================

/-- Number of binary digits of a natural number (`0` for `0`); the first
argument is fuel (any fuel at least the argument itself is enough). -/
def blenAux : Nat → Nat → Nat
  | 0, _ => 0
  | f+1, n => if n = 0 then 0 else blenAux f (n / 2) + 1

/-- Number of binary digits of a natural number. -/
def blen (n : Nat) : Nat := blenAux n n

/-- Strip factors of two from a mantissa, shifting the exponent up; the first
argument is fuel. -/
def stripTwos : Nat → Nat → Int → Nat × Int
  | 0, m, e => (m, e)
  | f+1, m, e => if m % 2 = 0 ∧ m ≠ 0 then stripTwos f (m / 2) (e + 1) else (m, e)

/-- A binary64 value: `m * 2 ^ e`.  Canonical form (produced by every
operation below) has `m` odd, or `m = 0 ∧ e = 0`. -/
structure F64 where
  m : Int
  e : Int
deriving DecidableEq, Repr

/-- The value 0.0. -/
def F64.zero : F64 := ⟨0, 0⟩

/-- Is `a / b < 2 ^ k` (for positive naturals `a`, `b`)? -/
def ltPow2 (a b : Nat) (k : Int) : Bool :=
  if 0 ≤ k then a < b * 2 ^ k.toNat else a * 2 ^ (-k).toNat < b

/-- Round the real number `(num / den) * 2 ^ s` to 53 significant bits,
round-to-nearest ties-to-even: IEEE-754 binary64 rounding with unbounded
exponent.  Returns `0` for a zero numerator (and, conventionally, for a zero
denominator, which no caller passes). -/
def roundQ (num den : Int) (s : Int) : F64 :=
  if num = 0 ∨ den = 0 then ⟨0, 0⟩
  else
    let sgn : Int := if (decide (num < 0)) = (decide (den < 0)) then 1 else -1
    let a := num.natAbs
    let b := den.natAbs
    let e0 : Int := (blen a : Int) - (blen b : Int)
    let e : Int := if ltPow2 a b e0 then e0 - 1 else e0
    let t : Int := 52 - e
    let N : Nat := if 0 ≤ t then a * 2 ^ t.toNat else a
    let D : Nat := if 0 ≤ t then b else b * 2 ^ (-t).toNat
    let i : Nat := N / D
    let r : Nat := N % D
    let m0 : Nat :=
      if D < 2 * r then i + 1
      else if 2 * r < D then i
      else if i % 2 = 0 then i else i + 1
    let p := stripTwos (m0 + 1) m0 (e + s - 52)
    ⟨sgn * p.1, p.2⟩

/-- The binary64 value of an integer (exact for magnitudes below `2 ^ 53`). -/
def F64.ofInt (n : Int) : F64 := roundQ n 1 0

/-- Negation (exact in binary64). -/
def fneg (x : F64) : F64 := ⟨-x.m, x.e⟩

/-- C `fabs` (exact). -/
def fabs (x : F64) : F64 := ⟨if x.m < 0 then -x.m else x.m, x.e⟩

/-- Mantissas of `x` and `y` brought to their common (minimum) exponent. -/
def align (x y : F64) : Int × Int × Int :=
  if x.e ≤ y.e then (x.m, y.m * 2 ^ (y.e - x.e).toNat, x.e)
  else (x.m * 2 ^ (x.e - y.e).toNat, y.m, y.e)

/-- Binary64 addition. -/
def fadd (x y : F64) : F64 :=
  roundQ ((align x y).1 + (align x y).2.1) 1 (align x y).2.2

/-- Binary64 subtraction. -/
def fsub (x y : F64) : F64 :=
  roundQ ((align x y).1 - (align x y).2.1) 1 (align x y).2.2

/-- Binary64 multiplication. -/
def fmul (x y : F64) : F64 := roundQ (x.m * y.m) 1 (x.e + y.e)

/-- Binary64 division. -/
def fdiv (x y : F64) : F64 := roundQ x.m y.m (x.e - y.e)

/-- The C comparison `x < y` on doubles. -/
def flt (x y : F64) : Bool := (align x y).1 < (align x y).2.1

/-- The C comparison `x == 0.0` on doubles. -/
def F64.isZero (x : F64) : Bool := x.m = 0

/-- C `fmod`: the exact remainder `x - trunc(x / y) * y`, which binary64
computes without rounding; sign follows the dividend. -/
def fmod (x y : F64) : F64 :=
  if y.m = 0 then ⟨0, 0⟩
  else
    let mx := (align x y).1
    let my := (align x y).2.1
    let e := (align x y).2.2
    let n := Int.tdiv mx my
    let m2 := mx - n * my
    if m2 = 0 then ⟨0, 0⟩
    else
      let p := stripTwos m2.natAbs m2.natAbs e
      ⟨if m2 < 0 then -(p.1 : Int) else (p.1 : Int), p.2⟩

/-- The binary64 value of the C literal `1e-10` (the singularity tolerance in
`brix_det` and `brix_inv`). -/
def tol1em10 : F64 := roundQ 1 10000000000 0

-- ==========================================
-- Value records (SECTION -2, 1, 1.5, 1.6, 2 of runtime.c)
-- ==========================================

/-- The C `Complex` struct (two doubles). -/
structure BrixComplex where
  real : F64
  imag : F64
deriving DecidableEq, Repr

/-- The C `Matrix` struct: `{ long ref_count; long rows; long cols; double *data; }`.
Dimensions are modelled by `Nat` (every constructor call passes non-negative
sizes); the owned buffer is inlined as a list. -/
structure BrixMatrix where
  ref_count : Int
  rows : Nat
  cols : Nat
  data : List F64
deriving DecidableEq, Repr

/-- The C `IntMatrix` struct (64-bit integer entries). -/
structure IntMatrix where
  ref_count : Int
  rows : Nat
  cols : Nat
  data : List Int
deriving DecidableEq, Repr

/-- The C `ComplexMatrix` struct. -/
structure ComplexMatrix where
  ref_count : Int
  rows : Nat
  cols : Nat
  data : List BrixComplex
deriving DecidableEq, Repr

/-- The C `BrixString` struct: `{ long ref_count; long len; char *data; }`.
`ref_count = none` models a field left uninitialized by `malloc` (never
written by the constructing function); `data = none` models a NULL data
pointer; a byte buffer is a list of byte values without the terminating NUL. -/
structure BrixString where
  ref_count : Option Int
  len : Nat
  data : Option (List Nat)
deriving DecidableEq, Repr

/-- The C `BrixClosure` struct: ref_count, non-owned code address `fn_ptr`,
owned environment pointer, optional environment destructor (identified by its
code address). -/
structure BrixClosure where
  ref_count : Int
  fn_ptr : Nat
  env_ptr : Option Nat
  env_destructor : Option Nat
deriving DecidableEq, Repr

-- ==========================================
-- Heap model and the retain/release protocol
-- ==========================================

/-- A heap of records of one type: an association list from addresses to
records.  Addresses held by live pointers are present exactly once. -/
def BrixHeap (α : Type) : Type := List (Nat × α)

/-- Dereference an address. -/
def heapLookup (h : BrixHeap α) (a : Nat) : Option α :=
  match h with
  | [] => none
  | (b, c) :: t => if b = a then some c else heapLookup t a

/-- Overwrite the record at an address (in place, as the C code mutates
through the pointer). -/
def heapUpdate (h : BrixHeap α) (a : Nat) (c : α) : BrixHeap α :=
  match h with
  | [] => []
  | (b, c') :: t => if b = a then (b, c) :: heapUpdate t a c else (b, c') :: heapUpdate t a c

/-- Free the record at an address (`free` of the record and of every owned
buffer inlined in it). -/
def heapRemove (h : BrixHeap α) (a : Nat) : BrixHeap α :=
  match h with
  | [] => []
  | (b, c) :: t => if b = a then heapRemove t a else (b, c) :: heapRemove t a

/-- `matrix_retain`: NULL is a no-op returning NULL; otherwise increment
`ref_count` through the pointer and return the same pointer. -/
def matrix_retain (h : BrixHeap BrixMatrix) (p : Option Nat) :
    BrixHeap BrixMatrix × Option Nat :=
  match p with
  | none => (h, none)
  | some a =>
    match heapLookup h a with
    | none => (h, some a)
    | some c => (heapUpdate h a { c with ref_count := c.ref_count + 1 }, some a)

/-- `matrix_release`: NULL is a no-op; otherwise decrement `ref_count` and,
at zero, free the data buffer and the record. -/
def matrix_release (h : BrixHeap BrixMatrix) (p : Option Nat) : BrixHeap BrixMatrix :=
  match p with
  | none => h
  | some a =>
    match heapLookup h a with
    | none => h
    | some c =>
      if c.ref_count - 1 = 0 then heapRemove h a
      else heapUpdate h a { c with ref_count := c.ref_count - 1 }

/-- `intmatrix_retain` (same protocol as `matrix_retain`). -/
def intmatrix_retain (h : BrixHeap IntMatrix) (p : Option Nat) :
    BrixHeap IntMatrix × Option Nat :=
  match p with
  | none => (h, none)
  | some a =>
    match heapLookup h a with
    | none => (h, some a)
    | some c => (heapUpdate h a { c with ref_count := c.ref_count + 1 }, some a)

/-- `intmatrix_release`. -/
def intmatrix_release (h : BrixHeap IntMatrix) (p : Option Nat) : BrixHeap IntMatrix :=
  match p with
  | none => h
  | some a =>
    match heapLookup h a with
    | none => h
    | some c =>
      if c.ref_count - 1 = 0 then heapRemove h a
      else heapUpdate h a { c with ref_count := c.ref_count - 1 }

/-- `complexmatrix_retain`. -/
def complexmatrix_retain (h : BrixHeap ComplexMatrix) (p : Option Nat) :
    BrixHeap ComplexMatrix × Option Nat :=
  match p with
  | none => (h, none)
  | some a =>
    match heapLookup h a with
    | none => (h, some a)
    | some c => (heapUpdate h a { c with ref_count := c.ref_count + 1 }, some a)

/-- `complexmatrix_release`. -/
def complexmatrix_release (h : BrixHeap ComplexMatrix) (p : Option Nat) :
    BrixHeap ComplexMatrix :=
  match p with
  | none => h
  | some a =>
    match heapLookup h a with
    | none => h
    | some c =>
      if c.ref_count - 1 = 0 then heapRemove h a
      else heapUpdate h a { c with ref_count := c.ref_count - 1 }

/-- `string_retain`.  `ref_count++` on an uninitialized field stays
uninitialized (its value is indeterminate either way). -/
def string_retain (h : BrixHeap BrixString) (p : Option Nat) :
    BrixHeap BrixString × Option Nat :=
  match p with
  | none => (h, none)
  | some a =>
    match heapLookup h a with
    | none => (h, some a)
    | some c => (heapUpdate h a { c with ref_count := c.ref_count.map (· + 1) }, some a)

/-- `string_release`.  The zero test on an uninitialized `ref_count` is
indeterminate; the model conservatively keeps the record. -/
def string_release (h : BrixHeap BrixString) (p : Option Nat) : BrixHeap BrixString :=
  match p with
  | none => h
  | some a =>
    match heapLookup h a with
    | none => h
    | some c =>
      match c.ref_count with
      | none => heapUpdate h a c
      | some v =>
        if v - 1 = 0 then heapRemove h a
        else heapUpdate h a { c with ref_count := some (v - 1) }

/-- `closure_retain`. -/
def closure_retain (h : BrixHeap BrixClosure) (p : Option Nat) :
    BrixHeap BrixClosure × Option Nat :=
  match p with
  | none => (h, none)
  | some a =>
    match heapLookup h a with
    | none => (h, some a)
    | some c => (heapUpdate h a { c with ref_count := c.ref_count + 1 }, some a)

/-- An observable resource event emitted by `closure_release`:
a call of a destructor on an environment pointer, or a `brix_free` of a
pointer. -/
inductive REvent where
  | destructorCall (destr : Nat) (env : Nat)
  | free (p : Nat)
deriving DecidableEq, Repr

/-- `closure_release`: NULL is a no-op; otherwise decrement `ref_count`; at
zero, if the environment is non-NULL first invoke the destructor on it (when
present) and then free the environment buffer, and finally free the closure
record itself (the code pointer `fn_ptr` is never freed).  The second
component lists the emitted events in order. -/
def closure_release (h : BrixHeap BrixClosure) (p : Option Nat) :
    BrixHeap BrixClosure × List REvent :=
  match p with
  | none => (h, [])
  | some a =>
    match heapLookup h a with
    | none => (h, [])
    | some c =>
      if c.ref_count - 1 = 0 then
        let envEvents : List REvent :=
          match c.env_ptr with
          | none => []
          | some e =>
            (match c.env_destructor with
             | some d => [REvent.destructorCall d e]
             | none => []) ++ [REvent.free e]
        (heapRemove h a, envEvents ++ [REvent.free a])
      else (heapUpdate h a { c with ref_count := c.ref_count - 1 }, [])

-- ==========================================
-- Strings (SECTION 2 and 2.1 of runtime.c)
-- ==========================================

/-- C `toupper` on a byte (default locale: ASCII a–z only). -/
def byteToUpper (b : Nat) : Nat := if 97 ≤ b ∧ b ≤ 122 then b - 32 else b

/-- C `tolower` on a byte (ASCII A–Z only). -/
def byteToLower (b : Nat) : Nat := if 65 ≤ b ∧ b ≤ 90 then b + 32 else b

/-- Does `o` occur in `s` starting at byte index `i`? -/
def matchesAt (s o : List Nat) (i : Nat) : Bool := (s.drop i).take o.length = o

/-- C `strstr`, returning the index of the first occurrence of `o` in `s`. -/
def strstrIdx (s o : List Nat) : Option Nat :=
  (List.range (s.length + 1)).find? (fun i => matchesAt s o i)

/-- `str_new`: copy a C string literal (NULL yields a valid empty string);
`ref_count` is initialized to 1. -/
def str_new (raw : Option (List Nat)) : BrixString :=
  match raw with
  | none => ⟨some 1, 0, some []⟩
  | some bs => ⟨some 1, bs.length, some bs⟩

/-- `str_concat`: fresh string holding `a`'s bytes then `b`'s bytes;
`ref_count` is initialized to 1.  (The C code dereferences both arguments
unconditionally, so the model takes non-NULL strings.) -/
def str_concat (a b : BrixString) : BrixString :=
  ⟨some 1, a.len + b.len, some (a.data.getD [] ++ b.data.getD [])⟩

/-- `brix_uppercase`: NULL argument or NULL buffer yields `str_new("")`;
otherwise a fresh record whose `ref_count` field is never written
(`malloc` junk, modelled as `none`). -/
def brix_uppercase (str : Option BrixString) : BrixString :=
  match str with
  | none => str_new (some [])
  | some s =>
    match s.data with
    | none => str_new (some [])
    | some d => ⟨none, s.len, some ((List.range s.len).map (fun i => byteToUpper (d.getD i 0)))⟩

/-- `brix_lowercase` (same structure as `brix_uppercase`). -/
def brix_lowercase (str : Option BrixString) : BrixString :=
  match str with
  | none => str_new (some [])
  | some s =>
    match s.data with
    | none => str_new (some [])
    | some d => ⟨none, s.len, some ((List.range s.len).map (fun i => byteToLower (d.getD i 0)))⟩

/-- `brix_capitalize`: NULL argument, NULL buffer or empty string yields
`str_new("")`; otherwise a fresh record (uninitialized `ref_count`) with the
buffer copied and its first byte upper-cased. -/
def brix_capitalize (str : Option BrixString) : BrixString :=
  match str with
  | none => str_new (some [])
  | some s =>
    match s.data with
    | none => str_new (some [])
    | some d =>
      if s.len = 0 then str_new (some [])
      else ⟨none, s.len, some (match d with | [] => [] | b :: rest => byteToUpper b :: rest)⟩

/-- `brix_byte_size`: 0 for NULL, else the `len` field. -/
def brix_byte_size (str : Option BrixString) : Nat :=
  match str with
  | none => 0
  | some s => s.len

/-- `brix_length`: 0 for NULL or a NULL buffer; otherwise the number of byte
positions `i < len` whose byte is not a UTF-8 continuation byte
(`(b & 0xC0) != 0x80`). -/
def brix_length (str : Option BrixString) : Nat :=
  match str with
  | none => 0
  | some s =>
    match s.data with
    | none => 0
    | some d => ((List.range s.len).filter (fun i => (d.getD i 0) &&& 0xC0 ≠ 0x80)).length

/-- Result of a string function that can return one of its arguments: either
a freshly `malloc`ed record (distinct from every input pointer), or the first
argument's pointer returned unchanged. -/
inductive StrRet where
  | fresh (s : BrixString)
  | arg0
deriving DecidableEq, Repr

/-- `brix_replace`: NULL argument or empty `old` returns the input `str`
pointer itself; no occurrence returns a fresh copy via `str_new`
(`ref_count = 1`); otherwise a fresh record with the first occurrence
replaced and an uninitialized `ref_count`. -/
def brix_replace (str old new : Option BrixString) : StrRet :=
  match str, old, new with
  | some s, some o, some nw =>
    if o.len = 0 then .arg0
    else
      let sd := s.data.getD []
      let od := o.data.getD []
      let nd := nw.data.getD []
      match strstrIdx sd od with
      | none => .fresh (str_new (some sd))
      | some pos =>
        .fresh ⟨none, s.len - o.len + nw.len, some (sd.take pos ++ nd ++ sd.drop (pos + od.length))⟩
  | _, _, _ => .arg0

/-- Number of non-overlapping occurrences of `o` in `s`, scanning left to
right (the counting loop of `brix_replace_all`); the first argument is fuel. -/
def countOcc : Nat → List Nat → List Nat → Nat
  | 0, _, _ => 0
  | fuel+1, s, o =>
    match strstrIdx s o with
    | none => 0
    | some pos => countOcc fuel (s.drop (pos + o.length)) o + 1

/-- The byte buffer built by the rewrite loop of `brix_replace_all`; the
first argument is fuel. -/
def replaceAllData : Nat → List Nat → List Nat → List Nat → List Nat
  | 0, s, _, _ => s
  | fuel+1, s, o, nd =>
    match strstrIdx s o with
    | none => s
    | some pos => s.take pos ++ nd ++ replaceAllData fuel (s.drop (pos + o.length)) o nd

/-- `brix_replace_all`: NULL argument or empty `old` returns the input `str`
pointer itself; zero occurrences returns a fresh copy via `str_new`; otherwise
a fresh record (uninitialized `ref_count`) with every occurrence replaced. -/
def brix_replace_all (str old new : Option BrixString) : StrRet :=
  match str, old, new with
  | some s, some o, some nw =>
    if o.len = 0 then .arg0
    else
      let sd := s.data.getD []
      let od := o.data.getD []
      let nd := nw.data.getD []
      let count := countOcc (sd.length + 1) sd od
      if count = 0 then .fresh (str_new (some sd))
      else
        .fresh ⟨none, s.len - count * o.len + count * nw.len,
                some (replaceAllData (sd.length + 1) sd od nd)⟩
  | _, _, _ => .arg0

-- ==========================================
-- Elementwise arithmetic (division and modulo paths)
-- ==========================================

/-- Build `size` result entries checking each index with `bad` first, exactly
as the C loops do: the first bad index aborts the process with `msg`. -/
def buildCheckedAux (f : Nat → α) (bad : Nat → Bool) (msg : String) :
    Nat → Nat → Except String (List α)
  | _, 0 => .ok []
  | i, k+1 =>
    if bad i then .error msg
    else (buildCheckedAux f bad msg (i+1) k).map (fun t => f i :: t)

/-- Entry point for `buildCheckedAux` starting at index 0. -/
def buildChecked (size : Nat) (f : Nat → α) (bad : Nat → Bool) (msg : String) :
    Except String (List α) :=
  buildCheckedAux f bad msg 0 size

/-- `matrix_div_scalar`: fatal on NULL and on a zero scalar divisor, else a
fresh matrix of the same shape with every entry divided by the scalar. -/
def matrix_div_scalar (m : Option BrixMatrix) (scalar : F64) : Except String BrixMatrix :=
  match m with
  | none => .error "Error: matrix_div_scalar called with NULL"
  | some m =>
    if scalar.isZero then .error "Error: division by zero in matrix_div_scalar"
    else .ok ⟨1, m.rows, m.cols,
      (List.range (m.rows * m.cols)).map (fun i => fdiv (m.data.getD i F64.zero) scalar)⟩

/-- `scalar_div_matrix`: fatal on NULL and on any zero element of the divisor
matrix (checked element by element inside the loop). -/
def scalar_div_matrix (scalar : F64) (m : Option BrixMatrix) : Except String BrixMatrix :=
  match m with
  | none => .error "Error: scalar_div_matrix called with NULL"
  | some m =>
    (buildChecked (m.rows * m.cols)
      (fun i => fdiv scalar (m.data.getD i F64.zero))
      (fun i => (m.data.getD i F64.zero).isZero)
      "Error: division by zero in scalar_div_matrix").map
      (fun d => ⟨1, m.rows, m.cols, d⟩)

/-- `matrix_mod_scalar`: fatal on NULL and on a zero scalar divisor, else
elementwise `fmod`. -/
def matrix_mod_scalar (m : Option BrixMatrix) (scalar : F64) : Except String BrixMatrix :=
  match m with
  | none => .error "Error: matrix_mod_scalar called with NULL"
  | some m =>
    if scalar.isZero then .error "Error: modulo by zero in matrix_mod_scalar"
    else .ok ⟨1, m.rows, m.cols,
      (List.range (m.rows * m.cols)).map (fun i => fmod (m.data.getD i F64.zero) scalar)⟩

/-- `matrix_div_matrix`: fatal on NULL, on a dimension mismatch, and on any
zero element of the divisor matrix; else elementwise quotient. -/
def matrix_div_matrix (m1 m2 : Option BrixMatrix) : Except String BrixMatrix :=
  match m1, m2 with
  | some m1, some m2 =>
    if m1.rows ≠ m2.rows ∨ m1.cols ≠ m2.cols then
      .error "Error: matrix dimensions mismatch in division"
    else
      (buildChecked (m1.rows * m1.cols)
        (fun i => fdiv (m1.data.getD i F64.zero) (m2.data.getD i F64.zero))
        (fun i => (m2.data.getD i F64.zero).isZero)
        "Error: division by zero in matrix_div_matrix").map
        (fun d => ⟨1, m1.rows, m1.cols, d⟩)
  | _, _ => .error "Error: matrix_div_matrix called with NULL"

/-- `matrix_mod_matrix`: fatal on NULL, mismatch, and any zero divisor
element; else elementwise `fmod`. -/
def matrix_mod_matrix (m1 m2 : Option BrixMatrix) : Except String BrixMatrix :=
  match m1, m2 with
  | some m1, some m2 =>
    if m1.rows ≠ m2.rows ∨ m1.cols ≠ m2.cols then
      .error "Error: matrix dimensions mismatch in modulo"
    else
      (buildChecked (m1.rows * m1.cols)
        (fun i => fmod (m1.data.getD i F64.zero) (m2.data.getD i F64.zero))
        (fun i => (m2.data.getD i F64.zero).isZero)
        "Error: modulo by zero in matrix_mod_matrix").map
        (fun d => ⟨1, m1.rows, m1.cols, d⟩)
  | _, _ => .error "Error: matrix_mod_matrix called with NULL"

/-- `intmatrix_div_scalar`: fatal on NULL and a zero scalar; else truncating
integer division (C `/` on `long`). -/
def intmatrix_div_scalar (m : Option IntMatrix) (scalar : Int) : Except String IntMatrix :=
  match m with
  | none => .error "Error: intmatrix_div_scalar called with NULL"
  | some m =>
    if scalar = 0 then .error "Error: division by zero in intmatrix_div_scalar"
    else .ok ⟨1, m.rows, m.cols,
      (List.range (m.rows * m.cols)).map (fun i => Int.tdiv (m.data.getD i 0) scalar)⟩

/-- `intmatrix_mod_scalar`: fatal on NULL and a zero scalar; else C `%`
(remainder with the sign of the dividend). -/
def intmatrix_mod_scalar (m : Option IntMatrix) (scalar : Int) : Except String IntMatrix :=
  match m with
  | none => .error "Error: intmatrix_mod_scalar called with NULL"
  | some m =>
    if scalar = 0 then .error "Error: modulo by zero in intmatrix_mod_scalar"
    else .ok ⟨1, m.rows, m.cols,
      (List.range (m.rows * m.cols)).map (fun i => Int.tmod (m.data.getD i 0) scalar)⟩

/-- `intmatrix_div_intmatrix`: fatal on NULL, mismatch, and any zero divisor
element; else elementwise truncating division. -/
def intmatrix_div_intmatrix (m1 m2 : Option IntMatrix) : Except String IntMatrix :=
  match m1, m2 with
  | some m1, some m2 =>
    if m1.rows ≠ m2.rows ∨ m1.cols ≠ m2.cols then
      .error "Error: intmatrix dimensions mismatch in division"
    else
      (buildChecked (m1.rows * m1.cols)
        (fun i => Int.tdiv (m1.data.getD i 0) (m2.data.getD i 0))
        (fun i => m2.data.getD i 0 = 0)
        "Error: division by zero in intmatrix_div_intmatrix").map
        (fun d => ⟨1, m1.rows, m1.cols, d⟩)
  | _, _ => .error "Error: intmatrix_div_intmatrix called with NULL"

/-- `intmatrix_mod_intmatrix`: fatal on NULL, mismatch, and any zero divisor
element; else elementwise C `%`. -/
def intmatrix_mod_intmatrix (m1 m2 : Option IntMatrix) : Except String IntMatrix :=
  match m1, m2 with
  | some m1, some m2 =>
    if m1.rows ≠ m2.rows ∨ m1.cols ≠ m2.cols then
      .error "Error: intmatrix dimensions mismatch in modulo"
    else
      (buildChecked (m1.rows * m1.cols)
        (fun i => Int.tmod (m1.data.getD i 0) (m2.data.getD i 0))
        (fun i => m2.data.getD i 0 = 0)
        "Error: modulo by zero in intmatrix_mod_intmatrix").map
        (fun d => ⟨1, m1.rows, m1.cols, d⟩)
  | _, _ => .error "Error: intmatrix_mod_intmatrix called with NULL"

/-- `matrix_add_matrix`: fatal on NULL and mismatch; else elementwise binary64
sum in a fresh matrix. -/
def matrix_add_matrix (m1 m2 : Option BrixMatrix) : Except String BrixMatrix :=
  match m1, m2 with
  | some m1, some m2 =>
    if m1.rows ≠ m2.rows ∨ m1.cols ≠ m2.cols then
      .error "Error: matrix dimensions mismatch in addition"
    else .ok ⟨1, m1.rows, m1.cols,
      (List.range (m1.rows * m1.cols)).map
        (fun i => fadd (m1.data.getD i F64.zero) (m2.data.getD i F64.zero))⟩
  | _, _ => .error "Error: matrix_add_matrix called with NULL"

/-- `matrix_sub_matrix`: fatal on NULL and mismatch; else elementwise binary64
difference in a fresh matrix. -/
def matrix_sub_matrix (m1 m2 : Option BrixMatrix) : Except String BrixMatrix :=
  match m1, m2 with
  | some m1, some m2 =>
    if m1.rows ≠ m2.rows ∨ m1.cols ≠ m2.cols then
      .error "Error: matrix dimensions mismatch in subtraction"
    else .ok ⟨1, m1.rows, m1.cols,
      (List.range (m1.rows * m1.cols)).map
        (fun i => fsub (m1.data.getD i F64.zero) (m2.data.getD i F64.zero))⟩
  | _, _ => .error "Error: matrix_sub_matrix called with NULL"

-- ==========================================
-- Linear algebra (SECTION 4 of runtime.c): determinant and inverse
-- ==========================================

/-- The row-swap loop shared by `brix_det` and `brix_inv`: on a flat
row-major buffer of row width `w`, exchange rows `i` and `p` entry by entry
through a temporary. -/
def swapRowsF (w i p : Nat) (a : List F64) : List F64 :=
  (List.range w).foldl (fun acc k =>
    let t := acc.getD (i*w+k) F64.zero
    ((acc.set (i*w+k) (acc.getD (p*w+k) F64.zero)).set (p*w+k) t)) a

/-- The pivot-search loop of `brix_det` and `brix_inv`: starting from row
`i`, scan rows `i+1 .. n-1` and keep the first row whose column-`c` entry has
strictly larger absolute value than the current candidate (flat buffer of row
width `w`). -/
def pivotSearchF (w c n i : Nat) (a : List F64) : Nat :=
  (List.range' (i+1) (n-(i+1))).foldl
    (fun p j =>
      if flt (fabs (a.getD (p*w+c) F64.zero)) (fabs (a.getD (j*w+c) F64.zero)) then j else p) i

/-- The elimination loop of `brix_det`: for each row `j > i`, subtract
`factor` times row `i` from row `j` on columns `i .. n-1`, where `factor`
is `a[j][i] / a[i][i]` read at the start of row `j`'s pass. -/
def detElimF (n i : Nat) (a : List F64) : List F64 :=
  (List.range' (i+1) (n-(i+1))).foldl (fun acc j =>
    let factor := fdiv (acc.getD (j*n+i) F64.zero) (acc.getD (i*n+i) F64.zero)
    (List.range' i (n-i)).foldl (fun acc2 k =>
      acc2.set (j*n+k)
        (fsub (acc2.getD (j*n+k) F64.zero) (fmul factor (acc2.getD (i*n+k) F64.zero)))) acc) a

/-- The main loop of `brix_det` for sizes at least 3: at step `i` find the
pivot row, swap (negating the running determinant), return 0.0 if the pivot
magnitude is below 1e-10, else eliminate below and multiply the pivot into
the running determinant.  `steps` counts the remaining iterations. -/
def detLoopF (n : Nat) : Nat → Nat → List F64 → F64 → F64
  | _, 0, _, det => det
  | i, steps+1, a, det =>
    let p := pivotSearchF n i n i a
    let a1 := if p ≠ i then swapRowsF n i p a else a
    let det1 := if p ≠ i then fneg det else det
    if flt (fabs (a1.getD (i*n+i) F64.zero)) tol1em10 then F64.zero
    else
      let a2 := detElimF n i a1
      detLoopF n (i+1) steps a2 (fmul det1 (a2.getD (i*n+i) F64.zero))

/-- `brix_det`: reported (non-fatal) error value 0.0 for a non-square input;
the single entry for 1x1; `a*d - b*c` for 2x2; otherwise Gaussian elimination
with partial pivoting on a copy of the data. -/
def brix_det (m : BrixMatrix) : F64 :=
  if m.rows ≠ m.cols then F64.zero
  else
    let n := m.rows
    if n = 1 then m.data.getD 0 F64.zero
    else if n = 2 then
      fsub (fmul (m.data.getD 0 F64.zero) (m.data.getD 3 F64.zero))
           (fmul (m.data.getD 1 F64.zero) (m.data.getD 2 F64.zero))
    else detLoopF n 0 n m.data (F64.ofInt 1)

/-- The pivot-row scaling loop of `brix_inv`: divide every entry of row `i`
of the augmented buffer (width `2n`) by the pivot value read before the
loop. -/
def invScaleRowF (n i : Nat) (a : List F64) : List F64 :=
  let pv := a.getD (i*(2*n)+i) F64.zero
  (List.range (2*n)).foldl (fun acc k =>
    acc.set (i*(2*n)+k) (fdiv (acc.getD (i*(2*n)+k) F64.zero) pv)) a

/-- The elimination loop of `brix_inv`: for every row `j ≠ i`, subtract
`factor = aug[j][i]` times the (already scaled) row `i` from row `j` on all
`2n` columns. -/
def invElimF (n i : Nat) (a : List F64) : List F64 :=
  (List.range n).foldl (fun acc j =>
    if j ≠ i then
      let factor := acc.getD (j*(2*n)+i) F64.zero
      (List.range (2*n)).foldl (fun acc2 k =>
        acc2.set (j*(2*n)+k)
          (fsub (acc2.getD (j*(2*n)+k) F64.zero)
                (fmul factor (acc2.getD (i*(2*n)+k) F64.zero)))) acc
    else acc) a

/-- The main Gauss-Jordan loop of `brix_inv` on the augmented buffer: pivot,
swap, report singularity (NULL) when the pivot magnitude is below 1e-10, else
scale the pivot row and eliminate the column everywhere else. -/
def invLoopF (n : Nat) : Nat → Nat → List F64 → Option (List F64)
  | _, 0, aug => some aug
  | i, steps+1, aug =>
    let p := pivotSearchF (2*n) i n i aug
    let aug1 := if p ≠ i then swapRowsF (2*n) i p aug else aug
    if flt (fabs (aug1.getD (i*(2*n)+i) F64.zero)) tol1em10 then none
    else
      let aug2 := invScaleRowF n i aug1
      let aug3 := invElimF n i aug2
      invLoopF n (i+1) steps aug3

/-- The augmented `[A | I]` buffer built by `brix_inv` (row width `2n`). -/
def invAugInit (n : Nat) (data : List F64) : List F64 :=
  (List.range (n*(2*n))).map (fun idx =>
    let r := idx / (2*n)
    let k := idx % (2*n)
    if k < n then data.getD (r*n+k) F64.zero
    else if k = n + r then F64.ofInt 1 else F64.zero)

/-- `brix_inv`: NULL (absent result) for a non-square input and when a pivot
magnitude falls below 1e-10; otherwise a fresh `n x n` matrix extracted from
the right half of the augmented buffer. -/
def brix_inv (m : BrixMatrix) : Option BrixMatrix :=
  if m.rows ≠ m.cols then none
  else
    let n := m.rows
    (invLoopF n 0 n (invAugInit n m.data)).map (fun aug =>
      ⟨1, n, n, (List.range (n*n)).map (fun idx =>
        let r := idx / n
        let j := idx % n
        aug.getD (r*(2*n)+n+j) F64.zero)⟩)

-- ==========================================
-- Row-level restatement of the elimination algorithms
-- (the claims' wording: rows, pivot selection, swap, eliminate)
-- ==========================================

/-- The entry at row `r`, column `c` of a list of rows. -/
def rcGet (R : List (List F64)) (r c : Nat) : F64 := (R.getD r []).getD c F64.zero

/-- The rows view of a flat row-major buffer (`n` rows of width `w`). -/
def toRows (w n : Nat) (a : List F64) : List (List F64) :=
  (List.range n).map (fun r => (List.range w).map (fun k => a.getD (r*w+k) F64.zero))

/-- Row-level partial pivoting: among rows `i .. n-1`, the first row whose
column-`c` entry has the largest absolute value. -/
def specPivotRow (n i c : Nat) (R : List (List F64)) : Nat :=
  (List.range' (i+1) (n-(i+1))).foldl
    (fun p j => if flt (fabs (rcGet R p c)) (fabs (rcGet R j c)) then j else p) i

/-- Row-level swap of rows `i` and `p`. -/
def specSwapRows (R : List (List F64)) (i p : Nat) : List (List F64) :=
  (R.set i (R.getD p [])).set p (R.getD i [])

/-- Row-level elimination below the pivot (width `n`): every row `j > i`
becomes `row j - (R[j][i] / R[i][i]) * row i` on columns `i .. n-1`. -/
def specElimBelow (n i : Nat) (R : List (List F64)) : List (List F64) :=
  (List.range n).map (fun j =>
    if j ≤ i then R.getD j []
    else
      (List.range n).map (fun k =>
        if k < i then rcGet R j k
        else fsub (rcGet R j k) (fmul (fdiv (rcGet R j i) (rcGet R i i)) (rcGet R i k))))

/-- Row-level restatement of the determinant loop: select the row with the
largest absolute value in the pivot column, swap (negating the running
value), return 0.0 as soon as a pivot magnitude falls below 1e-10, eliminate
below, and multiply the pivot in. -/
def detSpecLoop (n : Nat) : Nat → Nat → List (List F64) → F64 → F64
  | _, 0, _, det => det
  | i, steps+1, R, det =>
    let p := specPivotRow n i i R
    let R1 := if p ≠ i then specSwapRows R i p else R
    let det1 := if p ≠ i then fneg det else det
    if flt (fabs (rcGet R1 i i)) tol1em10 then F64.zero
    else
      let R2 := specElimBelow n i R1
      detSpecLoop n (i+1) steps R2 (fmul det1 (rcGet R2 i i))

/-- Row-level Gaussian-elimination determinant for an `n x n` matrix given as
rows, starting from 1.0. -/
def detGaussSpec (n : Nat) (R : List (List F64)) : F64 := detSpecLoop n 0 n R (F64.ofInt 1)

/-- Row-level augmented `[A | I]` matrix (rows of width `2n`). -/
def specAugment (n : Nat) (R : List (List F64)) : List (List F64) :=
  (List.range n).map (fun r =>
    (List.range n).map (fun k => rcGet R r k) ++
    (List.range n).map (fun k => if k = r then F64.ofInt 1 else F64.zero))

/-- Row-level scaling of pivot row `i` by its pivot entry (width `w`). -/
def specScaleRow (w i : Nat) (R : List (List F64)) : List (List F64) :=
  (List.range R.length).map (fun j =>
    if j = i then (List.range w).map (fun k => fdiv (rcGet R i k) (rcGet R i i))
    else R.getD j [])

/-- Row-level Gauss-Jordan elimination step (width `w`): every row `j ≠ i`
becomes `row j - R[j][i] * row i` on all columns. -/
def specElimAll (w n i : Nat) (R : List (List F64)) : List (List F64) :=
  (List.range n).map (fun j =>
    if j = i then R.getD i []
    else (List.range w).map (fun k => fsub (rcGet R j k) (fmul (rcGet R j i) (rcGet R i k))))

/-- Row-level restatement of the Gauss-Jordan loop of `brix_inv` on the
augmented rows: pivot, swap, absent result as soon as a pivot magnitude falls
below 1e-10, scale the pivot row, eliminate everywhere else. -/
def invSpecLoop (n : Nat) : Nat → Nat → List (List F64) → Option (List (List F64))
  | _, 0, R => some R
  | i, steps+1, R =>
    let p := specPivotRow n i i R
    let R1 := if p ≠ i then specSwapRows R i p else R
    if flt (fabs (rcGet R1 i i)) tol1em10 then none
    else invSpecLoop n (i+1) steps (specElimAll (2*n) n i (specScaleRow (2*n) i R1))

-- ==========================================
-- Eigenvector packaging (the post-solver loop of brix_eigvecs)
-- ==========================================

/-- Write the real eigenvector column `col` into the result buffer: for every
row, real part from `vr` column `col`, imaginary part 0. -/
def eigWriteRealCol (n col : Nat) (vr : List F64) (res : List BrixComplex) :
    List BrixComplex :=
  (List.range n).foldl (fun r row =>
    r.set (row*n+col) ⟨vr.getD (col*n+row) F64.zero, F64.zero⟩) res

/-- Write a conjugate pair of eigenvector columns `col`, `col+1`: the first
takes real parts from `vr` column `col` and imaginary parts from `vr` column
`col+1`; the second is its complex conjugate. -/
def eigWritePairCols (n col : Nat) (vr : List F64) (res : List BrixComplex) :
    List BrixComplex :=
  (List.range n).foldl (fun r row =>
    (r.set (row*n+col)
        ⟨vr.getD (col*n+row) F64.zero, vr.getD ((col+1)*n+row) F64.zero⟩).set
      (row*n+(col+1))
        ⟨vr.getD (col*n+row) F64.zero, fneg (vr.getD ((col+1)*n+row) F64.zero)⟩) res

/-- The packaging scan of `brix_eigvecs`: while `col < n`, a zero `wi[col]`
writes a real column and advances by one; a nonzero `wi[col]` writes the
conjugate pair and advances by two.  The first argument is fuel (the C loop
runs at most `n` iterations since `col` strictly increases). -/
def eigvecsLoop (n : Nat) (wi vr : List F64) : Nat → Nat → List BrixComplex →
    List BrixComplex
  | 0, _, res => res
  | fuel+1, col, res =>
    if col < n then
      if (wi.getD col F64.zero).isZero then
        eigvecsLoop n wi vr fuel (col+1) (eigWriteRealCol n col vr res)
      else
        eigvecsLoop n wi vr fuel (col+2) (eigWritePairCols n col vr res)
    else res

/-- The `n x n` complex buffer produced by the packaging loop of
`brix_eigvecs` from the solver outputs `wi` (imaginary parts of the
eigenvalues) and `vr` (packed right eigenvectors, column-major); the buffer
starts zeroed (`calloc` in `complexmatrix_new`). -/
def eigvecsPack (n : Nat) (wi vr : List F64) : List BrixComplex :=
  eigvecsLoop n wi vr n 0 (List.replicate (n*n) ⟨F64.zero, F64.zero⟩)

/-- The list of scan positions visited by the packaging loop, each paired
with whether it starts a conjugate pair (`wi` nonzero there); mirrors the
advance-by-one / advance-by-two scan.  First argument is fuel. -/
def eigScan (n : Nat) (wi : List F64) : Nat → Nat → List (Nat × Bool)
  | 0, _ => []
  | fuel+1, col =>
    if col < n then
      if (wi.getD col F64.zero).isZero then (col, false) :: eigScan n wi fuel (col+1)
      else (col, true) :: eigScan n wi fuel (col+2)
    else []

/-- All scan positions of the packaging loop. -/
def eigScanAll (n : Nat) (wi : List F64) : List (Nat × Bool) := eigScan n wi n 0

-- ==========================================
-- Helper predicate for the fatal path
-- ==========================================

/-- Did an operation take the fatal path (diagnostic + process exit)? -/
def isFatal (r : Except String β) : Bool :=
  match r with
  | .error _ => true
  | .ok _ => false

-- ==========================================
-- General list lemmas
-- ==========================================

theorem getD_set_self {α : Type} : ∀ (l : List α) (i : Nat) (v d : α), i < l.length →
    (l.set i v).getD i d = v := by
  intro l
  induction l with
  | nil => intro i v d h; simp at h
  | cons a t ih =>
    intro i v d h
    cases i with
    | zero => rfl
    | succ n =>
      simp only [List.set_cons_succ, List.getD_cons_succ]
      exact ih n v d (by simpa using h)

theorem getD_set_ne {α : Type} : ∀ (l : List α) (i j : Nat) (v d : α), i ≠ j →
    (l.set i v).getD j d = l.getD j d := by
  intro l
  induction l with
  | nil => intro i j v d _; simp [List.set]
  | cons a t ih =>
    intro i j v d hij
    cases i with
    | zero =>
      cases j with
      | zero => exact absurd rfl hij
      | succ k => rfl
    | succ n =>
      cases j with
      | zero => rfl
      | succ k =>
        simp only [List.set_cons_succ, List.getD_cons_succ]
        exact ih n k v d (fun h => hij (by rw [h]))

theorem list_ext_getD {α : Type} (d : α) : ∀ (l1 l2 : List α), l1.length = l2.length →
    (∀ i, i < l1.length → l1.getD i d = l2.getD i d) → l1 = l2 := by
  intro l1
  induction l1 with
  | nil => intro l2 hl _; cases l2 with | nil => rfl | cons b t => simp at hl
  | cons a t ih =>
    intro l2 hl hp
    cases l2 with
    | nil => simp at hl
    | cons b u =>
      have h0 := hp 0 (by simp)
      simp only [List.getD_cons_zero] at h0
      subst h0
      have := ih u (by simpa using hl) (fun i hi => by
        have := hp (i+1) (by simpa using Nat.succ_lt_succ hi)
        simpa using this)
      rw [this]

theorem getD_range_map {α : Type} (g : Nat → α) (n i : Nat) (d : α) (h : i < n) :
    ((List.range n).map g).getD i d = g i := by
  rw [List.getD_eq_getElem?_getD, List.getElem?_map, List.getElem?_range h]
  rfl

theorem length_range_map {α : Type} (g : Nat → α) (n : Nat) :
    ((List.range n).map g).length = n := by simp

-- ==========================================
-- Heap lemmas
-- ==========================================

theorem heapLookup_update_self {α : Type} :
    ∀ (h : BrixHeap α) (a : Nat) (c c' : α), heapLookup h a = some c →
      heapLookup (heapUpdate h a c') a = some c' := by
  intro h
  induction h with
  | nil => intro a c c' hl; simp [heapLookup] at hl
  | cons p t ih =>
    intro a c c' hl
    by_cases hb : p.1 = a
    · simp [heapUpdate, heapLookup, hb]
    · simp only [heapLookup, heapUpdate, if_neg hb] at hl ⊢
      exact ih a c c' hl

-- ==========================================
-- C1: retain/release protocol for the five refcounted types
-- ==========================================

/-- C1: for every refcounted value type (float matrix, integer matrix,
complex matrix, string, closure), retain on a non-null live value increments
its ref_count by exactly one in place and returns the same pointer; retain on
null is a no-op returning null; release on null is a no-op; and a retain
immediately followed by a release restores the value's record (in particular
its ref_count) exactly, provided the value's ref_count is nonzero (a live
value, per the data-model invariant).  For a string whose ref_count field was
never initialized the net-unchanged property is stated for an initialized
field (`some v`). -/
theorem claim_C1_retain_release :
    ((∀ (h : BrixHeap BrixMatrix) (a : Nat) (c : BrixMatrix), heapLookup h a = some c →
        matrix_retain h (some a) =
          (heapUpdate h a { c with ref_count := c.ref_count + 1 }, some a)) ∧
     (∀ h : BrixHeap BrixMatrix, matrix_retain h none = (h, none)) ∧
     (∀ h : BrixHeap BrixMatrix, matrix_release h none = h) ∧
     (∀ (h : BrixHeap BrixMatrix) (a : Nat) (c : BrixMatrix), heapLookup h a = some c →
        c.ref_count ≠ 0 →
        heapLookup (matrix_release (matrix_retain h (some a)).1 (some a)) a = some c)) ∧
    ((∀ (h : BrixHeap IntMatrix) (a : Nat) (c : IntMatrix), heapLookup h a = some c →
        intmatrix_retain h (some a) =
          (heapUpdate h a { c with ref_count := c.ref_count + 1 }, some a)) ∧
     (∀ h : BrixHeap IntMatrix, intmatrix_retain h none = (h, none)) ∧
     (∀ h : BrixHeap IntMatrix, intmatrix_release h none = h) ∧
     (∀ (h : BrixHeap IntMatrix) (a : Nat) (c : IntMatrix), heapLookup h a = some c →
        c.ref_count ≠ 0 →
        heapLookup (intmatrix_release (intmatrix_retain h (some a)).1 (some a)) a = some c)) ∧
    ((∀ (h : BrixHeap ComplexMatrix) (a : Nat) (c : ComplexMatrix), heapLookup h a = some c →
        complexmatrix_retain h (some a) =
          (heapUpdate h a { c with ref_count := c.ref_count + 1 }, some a)) ∧
     (∀ h : BrixHeap ComplexMatrix, complexmatrix_retain h none = (h, none)) ∧
     (∀ h : BrixHeap ComplexMatrix, complexmatrix_release h none = h) ∧
     (∀ (h : BrixHeap ComplexMatrix) (a : Nat) (c : ComplexMatrix), heapLookup h a = some c →
        c.ref_count ≠ 0 →
        heapLookup (complexmatrix_release (complexmatrix_retain h (some a)).1 (some a)) a
          = some c)) ∧
    ((∀ (h : BrixHeap BrixString) (a : Nat) (c : BrixString), heapLookup h a = some c →
        string_retain h (some a) =
          (heapUpdate h a { c with ref_count := c.ref_count.map (· + 1) }, some a)) ∧
     (∀ h : BrixHeap BrixString, string_retain h none = (h, none)) ∧
     (∀ h : BrixHeap BrixString, string_release h none = h) ∧
     (∀ (h : BrixHeap BrixString) (a : Nat) (c : BrixString) (v : Int),
        heapLookup h a = some c → c.ref_count = some v → v ≠ 0 →
        heapLookup (string_release (string_retain h (some a)).1 (some a)) a = some c)) ∧
    ((∀ (h : BrixHeap BrixClosure) (a : Nat) (c : BrixClosure), heapLookup h a = some c →
        closure_retain h (some a) =
          (heapUpdate h a { c with ref_count := c.ref_count + 1 }, some a)) ∧
     (∀ h : BrixHeap BrixClosure, closure_retain h none = (h, none)) ∧
     (∀ h : BrixHeap BrixClosure, closure_release h none = (h, [])) ∧
     (∀ (h : BrixHeap BrixClosure) (a : Nat) (c : BrixClosure), heapLookup h a = some c →
        c.ref_count ≠ 0 →
        heapLookup ((closure_release (closure_retain h (some a)).1 (some a)).1) a
          = some c)) := by
  refine ⟨⟨?_, ?_, ?_, ?_⟩, ⟨?_, ?_, ?_, ?_⟩, ⟨?_, ?_, ?_, ?_⟩, ⟨?_, ?_, ?_, ?_⟩,
      ⟨?_, ?_, ?_, ?_⟩⟩
  · intro h a c hl; simp [matrix_retain, hl]
  · intro h; rfl
  · intro h; rfl
  · intro h a c hl hrc
    have h1 := heapLookup_update_self h a c { c with ref_count := c.ref_count + 1 } hl
    simp only [matrix_retain, hl, matrix_release, h1]
    have : c.ref_count + 1 - 1 = c.ref_count := by omega
    rw [if_neg (by simpa [this] using hrc)]
    simpa [this] using
      heapLookup_update_self _ a _ { c with ref_count := c.ref_count + 1 - 1 } h1
  · intro h a c hl; simp [intmatrix_retain, hl]
  · intro h; rfl
  · intro h; rfl
  · intro h a c hl hrc
    have h1 := heapLookup_update_self h a c { c with ref_count := c.ref_count + 1 } hl
    simp only [intmatrix_retain, hl, intmatrix_release, h1]
    have : c.ref_count + 1 - 1 = c.ref_count := by omega
    rw [if_neg (by simpa [this] using hrc)]
    simpa [this] using
      heapLookup_update_self _ a _ { c with ref_count := c.ref_count + 1 - 1 } h1
  · intro h a c hl; simp [complexmatrix_retain, hl]
  · intro h; rfl
  · intro h; rfl
  · intro h a c hl hrc
    have h1 := heapLookup_update_self h a c { c with ref_count := c.ref_count + 1 } hl
    simp only [complexmatrix_retain, hl, complexmatrix_release, h1]
    have : c.ref_count + 1 - 1 = c.ref_count := by omega
    rw [if_neg (by simpa [this] using hrc)]
    simpa [this] using
      heapLookup_update_self _ a _ { c with ref_count := c.ref_count + 1 - 1 } h1
  · intro h a c hl; simp [string_retain, hl]
  · intro h; rfl
  · intro h; rfl
  · intro h a c v hl hv hrc
    obtain ⟨rc, ln, da⟩ := c
    simp only at hv
    subst hv
    have h1 := heapLookup_update_self h a _ (⟨some (v + 1), ln, da⟩ : BrixString) hl
    have h2 := heapLookup_update_self _ a _ (⟨some (v + 1 - 1), ln, da⟩ : BrixString) h1
    rw [show v + 1 - 1 = v from by omega] at h2
    simp only [string_retain, hl, string_release, Option.map_some', h1]
    rw [if_neg (show ¬ (v + 1 - 1 = 0) from by omega), show v + 1 - 1 = v from by omega]
    exact h2
  · intro h a c hl; simp [closure_retain, hl]
  · intro h; rfl
  · intro h; rfl
  · intro h a c hl hrc
    have h1 := heapLookup_update_self h a c { c with ref_count := c.ref_count + 1 } hl
    simp only [closure_retain, hl, closure_release, h1]
    have : c.ref_count + 1 - 1 = c.ref_count := by omega
    rw [if_neg (by simpa [this] using hrc)]
    simpa [this] using
      heapLookup_update_self _ a _ { c with ref_count := c.ref_count + 1 - 1 } h1

/-- Witness for C1 at concrete one-cell heaps of each of the five types. -/
theorem claim_C1_retain_release_witness :
    (matrix_retain [(0, (⟨2, 1, 1, [F64.zero]⟩ : BrixMatrix))] (some 0) =
       (heapUpdate [(0, ⟨2, 1, 1, [F64.zero]⟩)] 0 ⟨3, 1, 1, [F64.zero]⟩, some 0)) ∧
    (heapLookup (matrix_release
       (matrix_retain [(0, (⟨2, 1, 1, [F64.zero]⟩ : BrixMatrix))] (some 0)).1 (some 0)) 0 =
       some ⟨2, 1, 1, [F64.zero]⟩) ∧
    (heapLookup (intmatrix_release
       (intmatrix_retain [(0, (⟨1, 1, 1, [5]⟩ : IntMatrix))] (some 0)).1 (some 0)) 0 =
       some ⟨1, 1, 1, [5]⟩) ∧
    (heapLookup (complexmatrix_release
       (complexmatrix_retain [(0, (⟨1, 1, 1, []⟩ : ComplexMatrix))] (some 0)).1 (some 0)) 0 =
       some ⟨1, 1, 1, []⟩) ∧
    (heapLookup (string_release
       (string_retain [(0, (⟨some 1, 2, some [97, 98]⟩ : BrixString))] (some 0)).1 (some 0)) 0 =
       some ⟨some 1, 2, some [97, 98]⟩) ∧
    (heapLookup ((closure_release
       (closure_retain [(0, (⟨1, 7, some 9, none⟩ : BrixClosure))] (some 0)).1 (some 0)).1) 0 =
       some ⟨1, 7, some 9, none⟩) :=
  ⟨claim_C1_retain_release.1.1 [(0, ⟨2, 1, 1, [F64.zero]⟩)] 0 ⟨2, 1, 1, [F64.zero]⟩ rfl,
   claim_C1_retain_release.1.2.2.2 [(0, ⟨2, 1, 1, [F64.zero]⟩)] 0 ⟨2, 1, 1, [F64.zero]⟩
     rfl (by decide),
   claim_C1_retain_release.2.1.2.2.2 [(0, ⟨1, 1, 1, [5]⟩)] 0 ⟨1, 1, 1, [5]⟩ rfl (by decide),
   claim_C1_retain_release.2.2.1.2.2.2 [(0, ⟨1, 1, 1, []⟩)] 0 ⟨1, 1, 1, []⟩ rfl (by decide),
   claim_C1_retain_release.2.2.2.1.2.2.2 [(0, ⟨some 1, 2, some [97, 98]⟩)] 0
     ⟨some 1, 2, some [97, 98]⟩ 1 rfl rfl (by decide),
   claim_C1_retain_release.2.2.2.2.2.2.2 [(0, ⟨1, 7, some 9, none⟩)] 0 ⟨1, 7, some 9, none⟩
     rfl (by decide)⟩

-- ==========================================
-- C3: closure release and the destructor contract
-- ==========================================

/-- C3: when `closure_release` brings a closure's ref_count to zero and its
environment pointer is non-null, the destructor (if present) is invoked
exactly once on the environment, before the environment buffer is freed, and
then the record is freed; with no destructor only the environment buffer and
the record are freed; the only pointers ever freed are the record and the
environment (so the function pointer, which is neither, is never freed); and
a release that leaves ref_count above zero performs no destructor call and no
free at all. -/
theorem claim_C3_closure_destructor :
    (∀ (h : BrixHeap BrixClosure) (a : Nat) (c : BrixClosure) (e d : Nat),
       heapLookup h a = some c → c.ref_count = 1 → c.env_ptr = some e →
       c.env_destructor = some d →
       closure_release h (some a) =
         (heapRemove h a, [REvent.destructorCall d e, REvent.free e, REvent.free a])) ∧
    (∀ (h : BrixHeap BrixClosure) (a : Nat) (c : BrixClosure) (e : Nat),
       heapLookup h a = some c → c.ref_count = 1 → c.env_ptr = some e →
       c.env_destructor = none →
       closure_release h (some a) = (heapRemove h a, [REvent.free e, REvent.free a])) ∧
    (∀ (h : BrixHeap BrixClosure) (a : Nat) (c : BrixClosure),
       heapLookup h a = some c → c.ref_count = 1 → c.env_ptr = none →
       closure_release h (some a) = (heapRemove h a, [REvent.free a])) ∧
    (∀ (h : BrixHeap BrixClosure) (a : Nat) (c : BrixClosure) (p : Nat),
       heapLookup h a = some c → REvent.free p ∈ (closure_release h (some a)).2 →
       p = a ∨ c.env_ptr = some p) ∧
    (∀ (h : BrixHeap BrixClosure) (a : Nat) (c : BrixClosure),
       heapLookup h a = some c → c.fn_ptr ≠ a → c.env_ptr ≠ some c.fn_ptr →
       REvent.free c.fn_ptr ∉ (closure_release h (some a)).2) ∧
    (∀ (h : BrixHeap BrixClosure) (a : Nat) (c : BrixClosure),
       heapLookup h a = some c → 0 < c.ref_count - 1 →
       closure_release h (some a) =
         (heapUpdate h a { c with ref_count := c.ref_count - 1 }, [])) := by
  have hfree : ∀ (h : BrixHeap BrixClosure) (a : Nat) (c : BrixClosure) (p : Nat),
      heapLookup h a = some c → REvent.free p ∈ (closure_release h (some a)).2 →
      p = a ∨ c.env_ptr = some p := by
    intro h a c p hl hm
    simp only [closure_release, hl] at hm
    by_cases hz : c.ref_count - 1 = 0
    · rw [if_pos hz] at hm
      cases he : c.env_ptr with
      | none => simp [he] at hm; exact Or.inl hm
      | some e =>
        cases hd : c.env_destructor with
        | none =>
          simp [he, hd] at hm
          rcases hm with h1 | h1
          · exact Or.inr (by rw [h1])
          · exact Or.inl h1
        | some d =>
          simp [he, hd] at hm
          rcases hm with h1 | h1
          · exact Or.inr (by rw [h1])
          · exact Or.inl h1
    · rw [if_neg hz] at hm
      simp at hm
  refine ⟨?_, ?_, ?_, hfree, ?_, ?_⟩
  · intro h a c e d hl h1 he hd
    simp [closure_release, hl, h1, he, hd]
  · intro h a c e hl h1 he hd
    simp [closure_release, hl, h1, he, hd]
  · intro h a c hl h1 he
    simp [closure_release, hl, h1, he]
  · intro h a c hl hfn henv hm
    rcases hfree h a c c.fn_ptr hl hm with h1 | h1
    · exact hfn h1
    · exact henv h1
  · intro h a c hl hpos
    simp [closure_release, hl, if_neg (by omega : ¬ c.ref_count - 1 = 0)]

/-- Witness for C3 at concrete one-closure heaps covering the
destructor-present, destructor-absent and ref_count-above-zero cases. -/
theorem claim_C3_closure_destructor_witness :
    (closure_release [(0, (⟨1, 7, some 9, some 4⟩ : BrixClosure))] (some 0) =
       (heapRemove [(0, ⟨1, 7, some 9, some 4⟩)] 0,
        [REvent.destructorCall 4 9, REvent.free 9, REvent.free 0])) ∧
    (closure_release [(0, (⟨1, 7, some 9, none⟩ : BrixClosure))] (some 0) =
       (heapRemove [(0, ⟨1, 7, some 9, none⟩)] 0, [REvent.free 9, REvent.free 0])) ∧
    (closure_release [(0, (⟨1, 7, none, none⟩ : BrixClosure))] (some 0) =
       (heapRemove [(0, ⟨1, 7, none, none⟩)] 0, [REvent.free 0])) ∧
    (REvent.free 7 ∉ (closure_release [(0, (⟨1, 7, some 9, some 4⟩ : BrixClosure))] (some 0)).2) ∧
    (closure_release [(0, (⟨3, 7, some 9, some 4⟩ : BrixClosure))] (some 0) =
       (heapUpdate [(0, ⟨3, 7, some 9, some 4⟩)] 0 ⟨2, 7, some 9, some 4⟩, [])) :=
  ⟨claim_C3_closure_destructor.1 [(0, ⟨1, 7, some 9, some 4⟩)] 0 ⟨1, 7, some 9, some 4⟩ 9 4
     rfl rfl rfl rfl,
   claim_C3_closure_destructor.2.1 [(0, ⟨1, 7, some 9, none⟩)] 0 ⟨1, 7, some 9, none⟩ 9
     rfl rfl rfl rfl,
   claim_C3_closure_destructor.2.2.1 [(0, ⟨1, 7, none, none⟩)] 0 ⟨1, 7, none, none⟩ rfl rfl rfl,
   claim_C3_closure_destructor.2.2.2.2.1 [(0, ⟨1, 7, some 9, some 4⟩)] 0 ⟨1, 7, some 9, some 4⟩
     rfl (by decide) (by decide),
   claim_C3_closure_destructor.2.2.2.2.2 [(0, ⟨3, 7, some 9, some 4⟩)] 0 ⟨3, 7, some 9, some 4⟩
     rfl (by decide)⟩

-- ==========================================
-- C2: string-producing operations (code bug)
-- ==========================================

/-- C2 (code bug): the claim — every string-producing operation returns a
fresh String with ref_count 1 — is violated by the code.  `brix_replace` and
`brix_replace_all` return the input `str` pointer itself (not a fresh
string) whenever `old` is empty or an argument is NULL, and the case
conversions and replacement builders allocate their result with `malloc` but
never write its `ref_count` field (modelled as `none`), so the fresh records
do not have ref_count 1.  This theorem evaluates the code at the failing
inputs `brix_replace("abc", "", "x")` and `brix_uppercase("abc")`. -/
theorem claim_C2_string_fresh_refcount_bug :
    (brix_replace (some (str_new (some [97, 98, 99]))) (some (str_new (some [])))
        (some (str_new (some [120]))) = StrRet.arg0) ∧
    ((brix_uppercase (some (str_new (some [97, 98, 99])))).ref_count = none) ∧
    ((brix_uppercase (some (str_new (some [97, 98, 99])))).ref_count ≠ some 1) ∧
    (brix_replace_all (some (str_new (some [97]))) (some (str_new (some [])))
        (some (str_new (some [120]))) = StrRet.arg0) ∧
    ((brix_replace (some (str_new (some [97, 98]))) (some (str_new (some [97])))
        (some (str_new (some [120]))) =
      StrRet.fresh ⟨none, 2, some [120, 98]⟩)) := by
  refine ⟨rfl, rfl, by decide, rfl, ?_⟩
  rfl

-- ==========================================
-- C10: null-safe string length accessors
-- ==========================================

/-- C10: `brix_byte_size` of NULL is 0; `brix_length` of NULL, or of a string
with a NULL buffer, is 0; and for every string the UTF-8 lead-byte count
`brix_length` is at most `brix_byte_size`. -/
theorem claim_C10_length_null_safe :
    brix_byte_size none = 0 ∧
    brix_length none = 0 ∧
    (∀ s : BrixString, s.data = none → brix_length (some s) = 0) ∧
    (∀ s : BrixString, brix_length (some s) ≤ brix_byte_size (some s)) := by
  refine ⟨rfl, rfl, ?_, ?_⟩
  · intro s hd; simp [brix_length, hd]
  · intro s
    cases hd : s.data with
    | none => simp [brix_length, brix_byte_size, hd]
    | some d =>
      simp only [brix_length, brix_byte_size, hd]
      calc ((List.range s.len).filter _).length ≤ (List.range s.len).length :=
            List.length_filter_le _ _
        _ = s.len := List.length_range s.len

/-- Witness for C10 at a NULL-buffer string and a concrete UTF-8 string. -/
theorem claim_C10_length_null_safe_witness :
    brix_length (some (⟨some 1, 5, none⟩ : BrixString)) = 0 ∧
    brix_length (some (⟨some 1, 2, some [195, 169]⟩ : BrixString)) ≤
      brix_byte_size (some (⟨some 1, 2, some [195, 169]⟩ : BrixString)) :=
  ⟨claim_C10_length_null_safe.2.2.1 _ rfl,
   claim_C10_length_null_safe.2.2.2 _⟩

-- ==========================================
-- Characterization of the checked elementwise loops
-- ==========================================

theorem isFatal_map {α β : Type} (g : α → β) (r : Except String α) :
    isFatal (r.map g) = isFatal r := by cases r <;> rfl

theorem except_map_ok_iff {α β : Type} (g : α → β) (r : Except String α) (y : β) :
    r.map g = .ok y ↔ ∃ x, r = .ok x ∧ y = g x := by
  cases r with
  | error e => simp [Except.map]
  | ok x =>
    simp only [Except.map, Except.ok.injEq]
    constructor
    · intro h; exact ⟨x, rfl, h.symm⟩
    · rintro ⟨x', hx, hy⟩
      cases hx
      exact hy.symm

theorem buildCheckedAux_ok_iff {α : Type} (f : Nat → α) (bad : Nat → Bool) (msg : String) :
    ∀ (k i : Nat) (l : List α),
      buildCheckedAux f bad msg i k = .ok l ↔
        ((∀ j, j < k → bad (i + j) = false) ∧ l = (List.range' i k).map f) := by
  intro k
  induction k with
  | zero =>
    intro i l
    constructor
    · intro h
      simp only [buildCheckedAux, Except.ok.injEq] at h
      exact ⟨fun j hj => absurd hj (by omega), by simp [← h]⟩
    · rintro ⟨-, hl⟩
      simp only [List.range'] at hl
      simp [buildCheckedAux, hl]
  | succ k ih =>
    intro i l
    constructor
    · intro h
      simp only [buildCheckedAux] at h
      by_cases hb : bad i = true
      · rw [if_pos hb] at h; cases h
      · rw [if_neg hb] at h
        cases hrec : buildCheckedAux f bad msg (i+1) k with
        | error e => rw [hrec] at h; cases h
        | ok t =>
          rw [hrec] at h
          simp only [Except.map, Except.ok.injEq] at h
          obtain ⟨hbad, ht⟩ := (ih (i+1) t).mp hrec
          refine ⟨?_, ?_⟩
          · intro j hj
            cases j with
            | zero =>
              have hbf : bad i = false := by revert hb; cases bad i <;> simp
              simpa using hbf
            | succ j' =>
              have := hbad j' (by omega)
              rw [show i + (j' + 1) = (i + 1) + j' from by omega]
              exact this
          · rw [← h, ht, List.range'_succ, List.map_cons]
    · rintro ⟨hbad, hl⟩
      have hb : bad i = false := by simpa using hbad 0 (by omega)
      have hrec := (ih (i+1) ((List.range' (i+1) k).map f)).mpr
        ⟨fun j hj => by
          rw [show (i + 1) + j = i + (j + 1) from by omega]
          exact hbad (j+1) (by omega), rfl⟩
      simp only [buildCheckedAux, hb, Bool.false_eq_true, if_false, hrec, Except.map,
        Except.ok.injEq]
      rw [hl, List.range'_succ, List.map_cons]

theorem buildChecked_ok_iff {α : Type} (size : Nat) (f : Nat → α) (bad : Nat → Bool)
    (msg : String) (l : List α) :
    buildChecked size f bad msg = .ok l ↔
      ((∀ j, j < size → bad j = false) ∧ l = (List.range size).map f) := by
  rw [buildChecked, buildCheckedAux_ok_iff, List.range_eq_range']
  constructor
  · rintro ⟨hbad, hl⟩; exact ⟨fun j hj => by simpa using hbad j hj, hl⟩
  · rintro ⟨hbad, hl⟩; exact ⟨fun j hj => by simpa using hbad j hj, hl⟩

theorem buildChecked_fatal_iff {α : Type} (size : Nat) (f : Nat → α) (bad : Nat → Bool)
    (msg : String) :
    isFatal (buildChecked size f bad msg) = true ↔ ∃ i, i < size ∧ bad i = true := by
  cases hr : buildChecked size f bad msg with
  | ok l =>
    obtain ⟨hbad, -⟩ := (buildChecked_ok_iff size f bad msg l).mp hr
    simp only [isFatal]
    constructor
    · intro h; cases h
    · rintro ⟨i, hi, hb⟩; rw [hbad i hi] at hb; cases hb
  | error e =>
    simp only [isFatal, true_iff]
    by_contra hno
    push_neg at hno
    have : buildChecked size f bad msg = .ok ((List.range size).map f) :=
      (buildChecked_ok_iff size f bad msg _).mpr
        ⟨fun j hj => by simpa using hno j hj, rfl⟩
    rw [hr] at this
    cases this

theorem matmat_fatal_iff {α β : Type} (P : Prop) [Decidable P] (size : Nat) (f : Nat → α)
    (bad : Nat → Bool) (m1 m2 : String) (g : List α → β) :
    isFatal (if P then Except.error m1 else (buildChecked size f bad m2).map g) = true ↔
      (P ∨ ∃ i, i < size ∧ bad i = true) := by
  by_cases hp : P
  · simp [hp, isFatal]
  · rw [if_neg hp, isFatal_map, buildChecked_fatal_iff]
    simp [hp]

theorem matmat_ok_iff {α β : Type} (P : Prop) [Decidable P] (size : Nat) (f : Nat → α)
    (bad : Nat → Bool) (m1 m2 : String) (g : List α → β) (r : β) :
    ((if P then Except.error m1 else (buildChecked size f bad m2).map g) = .ok r) ↔
      (¬P ∧ (∀ i, i < size → bad i = false) ∧ r = g ((List.range size).map f)) := by
  by_cases hp : P
  · simp [hp]
  · rw [if_neg hp, except_map_ok_iff]
    constructor
    · rintro ⟨x, hx, hr⟩
      obtain ⟨hbad, hxl⟩ := (buildChecked_ok_iff _ _ _ _ _).mp hx
      exact ⟨hp, hbad, by rw [hr, hxl]⟩
    · rintro ⟨-, hbad, hr⟩
      exact ⟨_, (buildChecked_ok_iff _ _ _ _ _).mpr ⟨hbad, rfl⟩, hr⟩

-- ==========================================
-- C4: division/modulo fatality conditions
-- ==========================================

/-- C4: every float-matrix or integer-matrix division/modulo operation is
fatal (diagnostic + process exit, no result) exactly when an operand is
null, or the two matrix operands' dimensions differ, or the divisor is the
scalar zero, or some element of an elementwise divisor matrix is zero; and
otherwise returns a fresh matrix of the operands' shape holding the
elementwise quotient/remainder. -/
theorem claim_C4_div_mod_fatal :
    -- matrix_div_scalar
    ((∀ s : F64, isFatal (matrix_div_scalar none s) = true) ∧
     (∀ (a : BrixMatrix) (s : F64),
        isFatal (matrix_div_scalar (some a) s) = true ↔ s.isZero = true) ∧
     (∀ (a : BrixMatrix) (s : F64) (r : BrixMatrix),
        matrix_div_scalar (some a) s = .ok r ↔
          (s.isZero = false ∧
           r = ⟨1, a.rows, a.cols, (List.range (a.rows * a.cols)).map
                 (fun i => fdiv (a.data.getD i F64.zero) s)⟩))) ∧
    -- scalar_div_matrix
    ((∀ s : F64, isFatal (scalar_div_matrix s none) = true) ∧
     (∀ (s : F64) (a : BrixMatrix),
        isFatal (scalar_div_matrix s (some a)) = true ↔
          ∃ i, i < a.rows * a.cols ∧ (a.data.getD i F64.zero).isZero = true) ∧
     (∀ (s : F64) (a : BrixMatrix) (r : BrixMatrix),
        scalar_div_matrix s (some a) = .ok r ↔
          ((∀ i, i < a.rows * a.cols → (a.data.getD i F64.zero).isZero = false) ∧
           r = ⟨1, a.rows, a.cols, (List.range (a.rows * a.cols)).map
                 (fun i => fdiv s (a.data.getD i F64.zero))⟩))) ∧
    -- matrix_mod_scalar
    ((∀ s : F64, isFatal (matrix_mod_scalar none s) = true) ∧
     (∀ (a : BrixMatrix) (s : F64),
        isFatal (matrix_mod_scalar (some a) s) = true ↔ s.isZero = true) ∧
     (∀ (a : BrixMatrix) (s : F64) (r : BrixMatrix),
        matrix_mod_scalar (some a) s = .ok r ↔
          (s.isZero = false ∧
           r = ⟨1, a.rows, a.cols, (List.range (a.rows * a.cols)).map
                 (fun i => fmod (a.data.getD i F64.zero) s)⟩))) ∧
    -- matrix_div_matrix
    ((∀ m2, isFatal (matrix_div_matrix none m2) = true) ∧
     (∀ m1, isFatal (matrix_div_matrix m1 none) = true) ∧
     (∀ a b : BrixMatrix,
        isFatal (matrix_div_matrix (some a) (some b)) = true ↔
          ((a.rows ≠ b.rows ∨ a.cols ≠ b.cols) ∨
           ∃ i, i < a.rows * a.cols ∧ (b.data.getD i F64.zero).isZero = true)) ∧
     (∀ (a b : BrixMatrix) (r : BrixMatrix),
        matrix_div_matrix (some a) (some b) = .ok r ↔
          (a.rows = b.rows ∧ a.cols = b.cols ∧
           (∀ i, i < a.rows * a.cols → (b.data.getD i F64.zero).isZero = false) ∧
           r = ⟨1, a.rows, a.cols, (List.range (a.rows * a.cols)).map
                 (fun i => fdiv (a.data.getD i F64.zero) (b.data.getD i F64.zero))⟩))) ∧
    -- matrix_mod_matrix
    ((∀ m2, isFatal (matrix_mod_matrix none m2) = true) ∧
     (∀ m1, isFatal (matrix_mod_matrix m1 none) = true) ∧
     (∀ a b : BrixMatrix,
        isFatal (matrix_mod_matrix (some a) (some b)) = true ↔
          ((a.rows ≠ b.rows ∨ a.cols ≠ b.cols) ∨
           ∃ i, i < a.rows * a.cols ∧ (b.data.getD i F64.zero).isZero = true)) ∧
     (∀ (a b : BrixMatrix) (r : BrixMatrix),
        matrix_mod_matrix (some a) (some b) = .ok r ↔
          (a.rows = b.rows ∧ a.cols = b.cols ∧
           (∀ i, i < a.rows * a.cols → (b.data.getD i F64.zero).isZero = false) ∧
           r = ⟨1, a.rows, a.cols, (List.range (a.rows * a.cols)).map
                 (fun i => fmod (a.data.getD i F64.zero) (b.data.getD i F64.zero))⟩))) ∧
    -- intmatrix_div_scalar
    ((∀ s : Int, isFatal (intmatrix_div_scalar none s) = true) ∧
     (∀ (a : IntMatrix) (s : Int),
        isFatal (intmatrix_div_scalar (some a) s) = true ↔ s = 0) ∧
     (∀ (a : IntMatrix) (s : Int) (r : IntMatrix),
        intmatrix_div_scalar (some a) s = .ok r ↔
          (s ≠ 0 ∧
           r = ⟨1, a.rows, a.cols, (List.range (a.rows * a.cols)).map
                 (fun i => Int.tdiv (a.data.getD i 0) s)⟩))) ∧
    -- intmatrix_mod_scalar
    ((∀ s : Int, isFatal (intmatrix_mod_scalar none s) = true) ∧
     (∀ (a : IntMatrix) (s : Int),
        isFatal (intmatrix_mod_scalar (some a) s) = true ↔ s = 0) ∧
     (∀ (a : IntMatrix) (s : Int) (r : IntMatrix),
        intmatrix_mod_scalar (some a) s = .ok r ↔
          (s ≠ 0 ∧
           r = ⟨1, a.rows, a.cols, (List.range (a.rows * a.cols)).map
                 (fun i => Int.tmod (a.data.getD i 0) s)⟩))) ∧
    -- intmatrix_div_intmatrix
    ((∀ m2, isFatal (intmatrix_div_intmatrix none m2) = true) ∧
     (∀ m1, isFatal (intmatrix_div_intmatrix m1 none) = true) ∧
     (∀ a b : IntMatrix,
        isFatal (intmatrix_div_intmatrix (some a) (some b)) = true ↔
          ((a.rows ≠ b.rows ∨ a.cols ≠ b.cols) ∨
           ∃ i, i < a.rows * a.cols ∧ (b.data.getD i 0 = 0 : Bool) = true)) ∧
     (∀ (a b : IntMatrix) (r : IntMatrix),
        intmatrix_div_intmatrix (some a) (some b) = .ok r ↔
          (a.rows = b.rows ∧ a.cols = b.cols ∧
           (∀ i, i < a.rows * a.cols → (b.data.getD i 0 = 0 : Bool) = false) ∧
           r = ⟨1, a.rows, a.cols, (List.range (a.rows * a.cols)).map
                 (fun i => Int.tdiv (a.data.getD i 0) (b.data.getD i 0))⟩))) ∧
    -- intmatrix_mod_intmatrix
    ((∀ m2, isFatal (intmatrix_mod_intmatrix none m2) = true) ∧
     (∀ m1, isFatal (intmatrix_mod_intmatrix m1 none) = true) ∧
     (∀ a b : IntMatrix,
        isFatal (intmatrix_mod_intmatrix (some a) (some b)) = true ↔
          ((a.rows ≠ b.rows ∨ a.cols ≠ b.cols) ∨
           ∃ i, i < a.rows * a.cols ∧ (b.data.getD i 0 = 0 : Bool) = true)) ∧
     (∀ (a b : IntMatrix) (r : IntMatrix),
        intmatrix_mod_intmatrix (some a) (some b) = .ok r ↔
          (a.rows = b.rows ∧ a.cols = b.cols ∧
           (∀ i, i < a.rows * a.cols → (b.data.getD i 0 = 0 : Bool) = false) ∧
           r = ⟨1, a.rows, a.cols, (List.range (a.rows * a.cols)).map
                 (fun i => Int.tmod (a.data.getD i 0) (b.data.getD i 0))⟩))) := by
  refine ⟨⟨?_, ?_, ?_⟩, ⟨?_, ?_, ?_⟩, ⟨?_, ?_, ?_⟩, ⟨?_, ?_, ?_, ?_⟩, ⟨?_, ?_, ?_, ?_⟩,
      ⟨?_, ?_, ?_⟩, ⟨?_, ?_, ?_⟩, ⟨?_, ?_, ?_, ?_⟩, ⟨?_, ?_, ?_, ?_⟩⟩
  · intro s; rfl
  · intro a s
    simp only [matrix_div_scalar]
    by_cases hz : s.isZero = true
    · simp [hz, isFatal]
    · simp only [Bool.not_eq_true] at hz
      simp [hz, isFatal]
  · intro a s r
    simp only [matrix_div_scalar]
    by_cases hz : s.isZero = true
    · simp [hz]
    · simp only [Bool.not_eq_true] at hz
      simp [hz, eq_comm]
  · intro s; rfl
  · intro s a
    simp only [scalar_div_matrix]
    rw [isFatal_map, buildChecked_fatal_iff]
  · intro s a r
    simp only [scalar_div_matrix]
    rw [except_map_ok_iff]
    constructor
    · rintro ⟨x, hx, hr⟩
      obtain ⟨hbad, hxl⟩ := (buildChecked_ok_iff _ _ _ _ _).mp hx
      exact ⟨hbad, by rw [hr, hxl]⟩
    · rintro ⟨hbad, hr⟩
      exact ⟨_, (buildChecked_ok_iff _ _ _ _ _).mpr ⟨hbad, rfl⟩, hr⟩
  · intro s; rfl
  · intro a s
    simp only [matrix_mod_scalar]
    by_cases hz : s.isZero = true
    · simp [hz, isFatal]
    · simp only [Bool.not_eq_true] at hz
      simp [hz, isFatal]
  · intro a s r
    simp only [matrix_mod_scalar]
    by_cases hz : s.isZero = true
    · simp [hz]
    · simp only [Bool.not_eq_true] at hz
      simp [hz, eq_comm]
  · intro m2; cases m2 <;> rfl
  · intro m1; cases m1 <;> rfl
  · intro a b
    simp only [matrix_div_matrix]
    exact matmat_fatal_iff _ _ _ _ _ _ _
  · intro a b r
    simp only [matrix_div_matrix]
    rw [matmat_ok_iff]
    constructor
    · rintro ⟨hp, hbad, hr⟩
      push_neg at hp
      exact ⟨hp.1, hp.2, hbad, hr⟩
    · rintro ⟨h1, h2, hbad, hr⟩
      exact ⟨by push_neg; exact ⟨h1, h2⟩, hbad, hr⟩
  · intro m2; cases m2 <;> rfl
  · intro m1; cases m1 <;> rfl
  · intro a b
    simp only [matrix_mod_matrix]
    exact matmat_fatal_iff _ _ _ _ _ _ _
  · intro a b r
    simp only [matrix_mod_matrix]
    rw [matmat_ok_iff]
    constructor
    · rintro ⟨hp, hbad, hr⟩
      push_neg at hp
      exact ⟨hp.1, hp.2, hbad, hr⟩
    · rintro ⟨h1, h2, hbad, hr⟩
      exact ⟨by push_neg; exact ⟨h1, h2⟩, hbad, hr⟩
  · intro s; rfl
  · intro a s
    simp only [intmatrix_div_scalar]
    by_cases hz : s = 0
    · simp [hz, isFatal]
    · simp [hz, isFatal]
  · intro a s r
    simp only [intmatrix_div_scalar]
    by_cases hz : s = 0
    · simp [hz]
    · simp [hz, eq_comm]
  · intro s; rfl
  · intro a s
    simp only [intmatrix_mod_scalar]
    by_cases hz : s = 0
    · simp [hz, isFatal]
    · simp [hz, isFatal]
  · intro a s r
    simp only [intmatrix_mod_scalar]
    by_cases hz : s = 0
    · simp [hz]
    · simp [hz, eq_comm]
  · intro m2; cases m2 <;> rfl
  · intro m1; cases m1 <;> rfl
  · intro a b
    simp only [intmatrix_div_intmatrix]
    exact matmat_fatal_iff _ _ _ _ _ _ _
  · intro a b r
    simp only [intmatrix_div_intmatrix]
    rw [matmat_ok_iff]
    constructor
    · rintro ⟨hp, hbad, hr⟩
      push_neg at hp
      exact ⟨hp.1, hp.2, hbad, hr⟩
    · rintro ⟨h1, h2, hbad, hr⟩
      exact ⟨by push_neg; exact ⟨h1, h2⟩, hbad, hr⟩
  · intro m2; cases m2 <;> rfl
  · intro m1; cases m1 <;> rfl
  · intro a b
    simp only [intmatrix_mod_intmatrix]
    exact matmat_fatal_iff _ _ _ _ _ _ _
  · intro a b r
    simp only [intmatrix_mod_intmatrix]
    rw [matmat_ok_iff]
    constructor
    · rintro ⟨hp, hbad, hr⟩
      push_neg at hp
      exact ⟨hp.1, hp.2, hbad, hr⟩
    · rintro ⟨h1, h2, hbad, hr⟩
      exact ⟨by push_neg; exact ⟨h1, h2⟩, hbad, hr⟩

/-- Witness for C4: concrete fatal and successful evaluations obtained by
applying the characterization at explicit inputs. -/
theorem claim_C4_div_mod_fatal_witness :
    isFatal (matrix_div_matrix (some ⟨1, 1, 2, [F64.ofInt 1, F64.ofInt 2]⟩)
               (some ⟨1, 1, 2, [F64.ofInt 3, F64.zero]⟩)) = true ∧
    intmatrix_mod_intmatrix (some ⟨1, 1, 2, [7, 9]⟩) (some ⟨1, 1, 2, [2, 4]⟩) =
      .ok ⟨1, 1, 2, [Int.tmod 7 2, Int.tmod 9 4]⟩ ∧
    isFatal (intmatrix_div_intmatrix (some ⟨1, 1, 2, [7, 9]⟩) (some ⟨1, 2, 1, [2, 4]⟩)) = true ∧
    isFatal (matrix_div_scalar (some ⟨1, 1, 1, [F64.ofInt 1]⟩) F64.zero) = true :=
  ⟨(claim_C4_div_mod_fatal.2.2.2.1.2.2.1 ⟨1, 1, 2, [F64.ofInt 1, F64.ofInt 2]⟩
      ⟨1, 1, 2, [F64.ofInt 3, F64.zero]⟩).mpr (Or.inr ⟨1, by decide, by decide⟩),
   (claim_C4_div_mod_fatal.2.2.2.2.2.2.2.2.2.2.2 ⟨1, 1, 2, [7, 9]⟩ ⟨1, 1, 2, [2, 4]⟩
      ⟨1, 1, 2, [Int.tmod 7 2, Int.tmod 9 4]⟩).mpr
      ⟨rfl, rfl, by decide, by decide⟩,
   (claim_C4_div_mod_fatal.2.2.2.2.2.2.2.1.2.2.1 ⟨1, 1, 2, [7, 9]⟩ ⟨1, 2, 1, [2, 4]⟩).mpr
      (Or.inl (Or.inl (by decide))),
   (claim_C4_div_mod_fatal.1.2.1 ⟨1, 1, 1, [F64.ofInt 1]⟩ F64.zero).mpr rfl⟩

-- ==========================================
-- C8: A + B - B compared with A (binary64 rounding)
-- ==========================================

/-- C8 counterexample: with the 1x1 matrices A = [[0.1]] and B = [[0.2]]
(binary64 values 3602879701896397/2^55 and 3602879701896397/2^54),
`matrix_sub_matrix(matrix_add_matrix(A, B), B)` computes the entry
0.10000000000000003 = 1801439850948199/2^54, which differs from A's entry:
exact equality at every index fails in 64-bit floating point. -/
theorem claim_C8_counterexample :
    ((matrix_add_matrix (some ⟨1, 1, 1, [⟨3602879701896397, -55⟩]⟩)
        (some ⟨1, 1, 1, [⟨3602879701896397, -54⟩]⟩)).bind
      (fun s => matrix_sub_matrix (some s)
        (some ⟨1, 1, 1, [⟨3602879701896397, -54⟩]⟩))).toOption
      = some ⟨1, 1, 1, [⟨1801439850948199, -54⟩]⟩ ∧
    (⟨1801439850948199, -54⟩ : F64) ≠ ⟨3602879701896397, -55⟩ := by
  constructor
  · decide
  · decide

/-- C8 (amended): for all float matrices A, B of equal shape (with A's buffer
sized to its shape), `A + B - B` is a fresh matrix of A's shape equal to A
elementwise, provided each entry's add-then-subtract round trip is exact in
binary64; rounding can break exact equality otherwise, as the counterexample
A = [[0.1]], B = [[0.2]] shows. -/
theorem claim_C8_add_sub_roundtrip (a b : BrixMatrix)
    (hr : a.rows = b.rows) (hc : a.cols = b.cols)
    (hl : a.data.length = a.rows * a.cols)
    (hrt : ∀ i, i < a.rows * a.cols →
      fsub (fadd (a.data.getD i F64.zero) (b.data.getD i F64.zero)) (b.data.getD i F64.zero)
        = a.data.getD i F64.zero) :
    (matrix_add_matrix (some a) (some b)).bind
        (fun s => matrix_sub_matrix (some s) (some b))
      = .ok ⟨1, a.rows, a.cols, a.data⟩ := by
  have hadd : matrix_add_matrix (some a) (some b) =
      .ok ⟨1, a.rows, a.cols, (List.range (a.rows * a.cols)).map
            (fun i => fadd (a.data.getD i F64.zero) (b.data.getD i F64.zero))⟩ := by
    simp only [matrix_add_matrix]
    rw [if_neg (by push_neg; exact ⟨hr, hc⟩)]
  rw [hadd]
  simp only [Except.bind]
  simp only [matrix_sub_matrix]
  rw [if_neg (by push_neg; exact ⟨hr, hc⟩)]
  have hdata : (List.range (a.rows * a.cols)).map
      (fun i =>
        fsub (((List.range (a.rows * a.cols)).map
            (fun j => fadd (a.data.getD j F64.zero) (b.data.getD j F64.zero))).getD i F64.zero)
          (b.data.getD i F64.zero)) = a.data := by
    apply list_ext_getD F64.zero
    · rw [length_range_map, hl]
    · intro i hi
      rw [length_range_map] at hi
      rw [getD_range_map _ _ _ _ hi, getD_range_map _ _ _ _ hi]
      exact hrt i hi
  rw [hdata]

/-- Witness for C8 (amended) at A = [[1.0]], B = [[2.0]] (exact values, no
rounding). -/
theorem claim_C8_add_sub_roundtrip_witness :
    (matrix_add_matrix (some ⟨1, 1, 1, [F64.ofInt 1]⟩) (some ⟨1, 1, 1, [F64.ofInt 2]⟩)).bind
        (fun s => matrix_sub_matrix (some s) (some ⟨1, 1, 1, [F64.ofInt 2]⟩))
      = .ok ⟨1, 1, 1, [F64.ofInt 1]⟩ :=
  claim_C8_add_sub_roundtrip ⟨1, 1, 1, [F64.ofInt 1]⟩ ⟨1, 1, 1, [F64.ofInt 2]⟩ rfl rfl
    (by decide)
    (fun i hi => by
      have hi1 : i < 1 := hi
      have : i = 0 := by omega
      subst this
      decide)

-- ==========================================
-- C9: eigenvector packaging lemmas
-- ==========================================

theorem flat_lt {n r q : Nat} (hr : r < n) (hq : q < n) : r*n+q < n*n := by
  calc r*n+q < r*n+n := by omega
    _ = (r+1)*n := by ring
    _ ≤ n*n := Nat.mul_le_mul_right n hr

theorem flatIdx_inj {n r r' q q' : Nat} (hq : q < n) (hq' : q' < n)
    (h : r*n+q = r'*n+q') : r = r' ∧ q = q' := by
  have hn : 0 < n := by omega
  have h1 : (r*n+q) % n = q := by
    rw [Nat.add_mod, Nat.mul_mod_left, Nat.zero_add, Nat.mod_mod_of_dvd,
      Nat.mod_eq_of_lt hq]
    exact Dvd.intro 1 (by ring)
  have h2 : (r'*n+q') % n = q' := by
    rw [Nat.add_mod, Nat.mul_mod_left, Nat.zero_add, Nat.mod_mod_of_dvd,
      Nat.mod_eq_of_lt hq']
    exact Dvd.intro 1 (by ring)
  have hqq : q = q' := by rw [← h1, ← h2, h]
  refine ⟨?_, hqq⟩
  subst hqq
  have : r * n = r' * n := by omega
  exact Nat.eq_of_mul_eq_mul_right hn this

theorem foldl_length_preserved {β γ : Type} (F : List β → γ → List β)
    (h : ∀ b x, (F b x).length = b.length) :
    ∀ (l : List γ) (res : List β), (l.foldl F res).length = res.length := by
  intro l
  induction l with
  | nil => intro res; rfl
  | cons x t ih => intro res; rw [List.foldl_cons, ih, h]

theorem eigWriteRealCol_length (n col : Nat) (vr : List F64) (res : List BrixComplex) :
    (eigWriteRealCol n col vr res).length = res.length :=
  foldl_length_preserved _ (fun b _ => List.length_set b _ _) _ res

theorem eigWritePairCols_length (n col : Nat) (vr : List F64) (res : List BrixComplex) :
    (eigWritePairCols n col vr res).length = res.length :=
  foldl_length_preserved _
    (fun b x => by rw [List.length_set, List.length_set]) _ res

theorem eigWriteRealCol_getD (n col : Nat) (vr : List F64) (res : List BrixComplex)
    (hlen : res.length = n*n) (hcol : col < n) (d : BrixComplex) :
    ∀ r q, r < n → q < n →
      (eigWriteRealCol n col vr res).getD (r*n+q) d =
        if q = col then ⟨vr.getD (col*n+r) F64.zero, F64.zero⟩
        else res.getD (r*n+q) d := by
  suffices h : ∀ c, c ≤ n → ∀ r q, r < n → q < n →
      ((List.range c).foldl (fun acc row =>
          acc.set (row*n+col) ⟨vr.getD (col*n+row) F64.zero, F64.zero⟩) res).getD (r*n+q) d =
        if r < c ∧ q = col then ⟨vr.getD (col*n+r) F64.zero, F64.zero⟩
        else res.getD (r*n+q) d by
    intro r q hr hq
    have hh := h n (le_refl n) r q hr hq
    simp only [eigWriteRealCol]
    rw [hh]
    by_cases hqc : q = col
    · simp [hqc, hr]
    · simp [hqc]
  intro c
  induction c with
  | zero => intro _ r q hr hq; simp
  | succ c ih =>
    intro hc r q hr hq
    rw [List.range_succ, List.foldl_append, List.foldl_cons, List.foldl_nil]
    have hlen' : ((List.range c).foldl (fun acc row =>
        acc.set (row*n+col) ⟨vr.getD (col*n+row) F64.zero, F64.zero⟩) res).length = n*n := by
      rw [foldl_length_preserved _ (fun b x => List.length_set b _ _), hlen]
    by_cases heq : r*n+q = c*n+col
    · obtain ⟨hrc, hqc⟩ := flatIdx_inj hq hcol heq
      subst hrc; subst hqc
      rw [getD_set_self _ _ _ _ (by rw [hlen']; exact flat_lt hr hcol)]
      simp [hr]
    · rw [getD_set_ne _ _ _ _ _ (fun hh => heq hh.symm)]
      rw [ih (by omega) r q hr hq]
      by_cases hqc : q = col
      · have hrc : r ≠ c := fun hh => heq (by rw [hh, hqc])
        by_cases hlt : r < c
        · simp [hlt, hqc, show r < c + 1 from by omega]
        · simp [hlt, hqc, show ¬ (r < c + 1) from by omega]
      · simp [hqc]

theorem eigWritePairCols_getD (n col : Nat) (vr : List F64) (res : List BrixComplex)
    (hlen : res.length = n*n) (hcol : col + 1 < n) (d : BrixComplex) :
    ∀ r q, r < n → q < n →
      (eigWritePairCols n col vr res).getD (r*n+q) d =
        if q = col then ⟨vr.getD (col*n+r) F64.zero, vr.getD ((col+1)*n+r) F64.zero⟩
        else if q = col + 1 then
          ⟨vr.getD (col*n+r) F64.zero, fneg (vr.getD ((col+1)*n+r) F64.zero)⟩
        else res.getD (r*n+q) d := by
  have hcol0 : col < n := by omega
  suffices h : ∀ c, c ≤ n → ∀ r q, r < n → q < n →
      ((List.range c).foldl (fun acc row =>
          (acc.set (row*n+col)
              ⟨vr.getD (col*n+row) F64.zero, vr.getD ((col+1)*n+row) F64.zero⟩).set
            (row*n+(col+1))
              ⟨vr.getD (col*n+row) F64.zero, fneg (vr.getD ((col+1)*n+row) F64.zero)⟩)
        res).getD (r*n+q) d =
        if r < c ∧ q = col then
          ⟨vr.getD (col*n+r) F64.zero, vr.getD ((col+1)*n+r) F64.zero⟩
        else if r < c ∧ q = col + 1 then
          ⟨vr.getD (col*n+r) F64.zero, fneg (vr.getD ((col+1)*n+r) F64.zero)⟩
        else res.getD (r*n+q) d by
    intro r q hr hq
    have hh := h n (le_refl n) r q hr hq
    simp only [eigWritePairCols]
    rw [hh]
    by_cases hqc : q = col
    · simp [hqc, hr]
    · by_cases hqc1 : q = col + 1
      · simp [hqc, hqc1, hr]
      · simp [hqc, hqc1]
  intro c
  induction c with
  | zero => intro _ r q hr hq; simp
  | succ c ih =>
    intro hc r q hr hq
    rw [List.range_succ, List.foldl_append, List.foldl_cons, List.foldl_nil]
    have hlen' : ((List.range c).foldl (fun acc row =>
        (acc.set (row*n+col)
            ⟨vr.getD (col*n+row) F64.zero, vr.getD ((col+1)*n+row) F64.zero⟩).set
          (row*n+(col+1))
            ⟨vr.getD (col*n+row) F64.zero, fneg (vr.getD ((col+1)*n+row) F64.zero)⟩)
        res).length = n*n := by
      rw [foldl_length_preserved _ (fun b x => by rw [List.length_set, List.length_set]), hlen]
    by_cases heq1 : r*n+q = c*n+(col+1)
    · obtain ⟨hrc, hqc⟩ := flatIdx_inj hq (by omega) heq1
      subst hrc; subst hqc
      rw [getD_set_self _ _ _ _ (by
        rw [List.length_set, hlen']; exact flat_lt hr (by omega))]
      simp [show ¬ (col + 1 = col) from by omega, hr]
    · rw [getD_set_ne _ _ _ _ _ (fun hh => heq1 hh.symm)]
      by_cases heq0 : r*n+q = c*n+col
      · obtain ⟨hrc, hqc⟩ := flatIdx_inj hq hcol0 heq0
        subst hrc; subst hqc
        rw [getD_set_self _ _ _ _ (by rw [hlen']; exact flat_lt hr hcol0)]
        simp [hr]
      · rw [getD_set_ne _ _ _ _ _ (fun hh => heq0 hh.symm)]
        rw [ih (by omega) r q hr hq]
        by_cases hqc : q = col
        · have hrc : r ≠ c := fun hh => heq0 (by rw [hh, hqc])
          by_cases hlt : r < c
          · simp [hlt, hqc, show r < c + 1 from by omega]
          · simp [hlt, hqc, show ¬ (r < c + 1) from by omega]
        · by_cases hqc1 : q = col + 1
          · have hrc : r ≠ c := fun hh => heq1 (by rw [hh, hqc1])
            by_cases hlt : r < c
            · simp [hlt, hqc, hqc1, show r < c + 1 from by omega]
            · simp [hlt, hqc, hqc1, show ¬ (r < c + 1) from by omega]
          · simp [hqc, hqc1]

theorem eigvecsLoop_length (n : Nat) (wi vr : List F64) :
    ∀ fuel col res, (eigvecsLoop n wi vr fuel col res).length = res.length := by
  intro fuel
  induction fuel with
  | zero => intro col res; rfl
  | succ f ih =>
    intro col res
    simp only [eigvecsLoop]
    by_cases hc : col < n
    · rw [if_pos hc]
      by_cases hz : (wi.getD col F64.zero).isZero = true
      · rw [if_pos hz, ih, eigWriteRealCol_length]
      · rw [if_neg hz, ih, eigWritePairCols_length]
    · rw [if_neg hc]

theorem eigvecsLoop_preserve (n : Nat) (wi vr : List F64) (d : BrixComplex) :
    ∀ fuel col0 res, res.length = n*n →
    (∀ c b, (c, b) ∈ eigScan n wi fuel col0 → b = true → c + 1 < n) →
    ∀ r q, r < n → q < n → q < col0 →
      (eigvecsLoop n wi vr fuel col0 res).getD (r*n+q) d = res.getD (r*n+q) d := by
  intro fuel
  induction fuel with
  | zero => intros; rfl
  | succ f ih =>
    intro col0 res hlen hwf r q hr hq hqc
    simp only [eigvecsLoop]
    by_cases hc : col0 < n
    · rw [if_pos hc]
      by_cases hz : (wi.getD col0 F64.zero).isZero = true
      · rw [if_pos hz]
        have hwf' : ∀ c b, (c, b) ∈ eigScan n wi f (col0+1) → b = true → c + 1 < n := by
          intro c b hm
          exact hwf c b (by
            simp only [eigScan, if_pos hc, if_pos hz]
            exact List.mem_cons_of_mem _ hm)
        rw [ih (col0+1) _ (by rw [eigWriteRealCol_length, hlen]) hwf' r q hr hq (by omega)]
        rw [eigWriteRealCol_getD n col0 vr res hlen hc d r q hr hq]
        rw [if_neg (by omega)]
      · rw [if_neg hz]
        have hpair : col0 + 1 < n := by
          refine hwf col0 true ?_ rfl
          simp only [eigScan, if_pos hc, if_neg hz]
          exact List.mem_cons_self _ _
        have hwf' : ∀ c b, (c, b) ∈ eigScan n wi f (col0+2) → b = true → c + 1 < n := by
          intro c b hm
          exact hwf c b (by
            simp only [eigScan, if_pos hc, if_neg hz]
            exact List.mem_cons_of_mem _ hm)
        rw [ih (col0+2) _ (by rw [eigWritePairCols_length, hlen]) hwf' r q hr hq (by omega)]
        rw [eigWritePairCols_getD n col0 vr res hlen hpair d r q hr hq]
        rw [if_neg (by omega), if_neg (by omega)]
    · rw [if_neg hc]

theorem eigScan_mem (n : Nat) (wi : List F64) :
    ∀ fuel col c b, (c, b) ∈ eigScan n wi fuel col →
      c < n ∧ (b = false ↔ (wi.getD c F64.zero).isZero = true) := by
  intro fuel
  induction fuel with
  | zero => intro col c b h; simp [eigScan] at h
  | succ f ih =>
    intro col c b h
    simp only [eigScan] at h
    by_cases hc : col < n
    · rw [if_pos hc] at h
      by_cases hz : (wi.getD col F64.zero).isZero = true
      · rw [if_pos hz] at h
        rcases List.mem_cons.mp h with h1 | h1
        · simp only [Prod.mk.injEq] at h1
          obtain ⟨rfl, rfl⟩ := h1
          exact ⟨hc, fun _ => hz, fun _ => rfl⟩
        · exact ih _ c b h1
      · rw [if_neg hz] at h
        rcases List.mem_cons.mp h with h1 | h1
        · simp only [Prod.mk.injEq] at h1
          obtain ⟨rfl, rfl⟩ := h1
          exact ⟨hc, fun hb => absurd hb (by simp), fun hzz => absurd hzz hz⟩
        · exact ih _ c b h1
    · rw [if_neg hc] at h; simp at h

theorem eigScan_next (n : Nat) (wi : List F64) :
    ∀ fuel col, n ≤ fuel + col →
      ∀ c b, (c, b) ∈ eigScan n wi fuel col →
        (b = false → c + 1 < n → ∃ b', (c+1, b') ∈ eigScan n wi fuel col) ∧
        (b = true → c + 2 < n → ∃ b', (c+2, b') ∈ eigScan n wi fuel col) := by
  intro fuel
  induction fuel with
  | zero => intro col _ c b h; simp [eigScan] at h
  | succ f ih =>
    intro col hn c b h
    simp only [eigScan] at h ⊢
    by_cases hc : col < n
    case neg => rw [if_neg hc] at h; simp at h
    rw [if_pos hc] at h ⊢
    by_cases hz : (wi.getD col F64.zero).isZero = true
    · rw [if_pos hz] at h ⊢
      rcases List.mem_cons.mp h with h1 | h1
      · simp only [Prod.mk.injEq] at h1
        obtain ⟨rfl, rfl⟩ := h1
        refine ⟨fun _ hcn => ?_, fun hb _ => absurd hb (by simp)⟩
        obtain ⟨f', rfl⟩ : ∃ f', f = f' + 1 := ⟨f - 1, by omega⟩
        by_cases hz' : (wi.getD (c+1) F64.zero).isZero = true
        · exact ⟨false, List.mem_cons_of_mem _ (by
            simp only [eigScan, if_pos hcn, if_pos hz']
            exact List.mem_cons_self _ _)⟩
        · exact ⟨true, List.mem_cons_of_mem _ (by
            simp only [eigScan, if_pos hcn, if_neg hz']
            exact List.mem_cons_self _ _)⟩
      · have := ih (col+1) (by omega) c b h1
        exact ⟨fun hb hcn => (this.1 hb hcn).imp
            (fun b' hm => List.mem_cons_of_mem _ hm),
          fun hb hcn => (this.2 hb hcn).imp (fun b' hm => List.mem_cons_of_mem _ hm)⟩
    · rw [if_neg hz] at h ⊢
      rcases List.mem_cons.mp h with h1 | h1
      · simp only [Prod.mk.injEq] at h1
        obtain ⟨rfl, rfl⟩ := h1
        refine ⟨fun hb _ => absurd hb (by simp), fun _ hcn => ?_⟩
        obtain ⟨f', rfl⟩ : ∃ f', f = f' + 1 := ⟨f - 1, by omega⟩
        by_cases hz' : (wi.getD (c+2) F64.zero).isZero = true
        · exact ⟨false, List.mem_cons_of_mem _ (by
            simp only [eigScan, if_pos hcn, if_pos hz']
            exact List.mem_cons_self _ _)⟩
        · exact ⟨true, List.mem_cons_of_mem _ (by
            simp only [eigScan, if_pos hcn, if_neg hz']
            exact List.mem_cons_self _ _)⟩
      · have := ih (col+2) (by omega) c b h1
        exact ⟨fun hb hcn => (this.1 hb hcn).imp
            (fun b' hm => List.mem_cons_of_mem _ hm),
          fun hb hcn => (this.2 hb hcn).imp (fun b' hm => List.mem_cons_of_mem _ hm)⟩

theorem eigvecsLoop_entries (n : Nat) (wi vr : List F64) (d : BrixComplex) :
    ∀ fuel col0 res, res.length = n*n →
      (∀ c b, (c, b) ∈ eigScan n wi fuel col0 → b = true → c + 1 < n) →
      ∀ c b, (c, b) ∈ eigScan n wi fuel col0 →
        (b = false → ∀ r, r < n →
          (eigvecsLoop n wi vr fuel col0 res).getD (r*n+c) d =
            ⟨vr.getD (c*n+r) F64.zero, F64.zero⟩) ∧
        (b = true → ∀ r, r < n →
          (eigvecsLoop n wi vr fuel col0 res).getD (r*n+c) d =
            ⟨vr.getD (c*n+r) F64.zero, vr.getD ((c+1)*n+r) F64.zero⟩ ∧
          (eigvecsLoop n wi vr fuel col0 res).getD (r*n+(c+1)) d =
            ⟨vr.getD (c*n+r) F64.zero, fneg (vr.getD ((c+1)*n+r) F64.zero)⟩) := by
  intro fuel
  induction fuel with
  | zero => intro col0 res _ _ c b h; simp [eigScan] at h
  | succ f ih =>
    intro col0 res hlen hwf c b h
    simp only [eigScan] at h
    by_cases hc : col0 < n
    case neg => rw [if_neg hc] at h; simp at h
    rw [if_pos hc] at h
    by_cases hz : (wi.getD col0 F64.zero).isZero = true
    · rw [if_pos hz] at h
      have hloop : eigvecsLoop n wi vr (f+1) col0 res =
          eigvecsLoop n wi vr f (col0+1) (eigWriteRealCol n col0 vr res) := by
        simp only [eigvecsLoop, if_pos hc, if_pos hz]
      have hwf' : ∀ c b, (c, b) ∈ eigScan n wi f (col0+1) → b = true → c + 1 < n := by
        intro c b hm
        exact hwf c b (by
          simp only [eigScan, if_pos hc, if_pos hz]
          exact List.mem_cons_of_mem _ hm)
      have hlen' : (eigWriteRealCol n col0 vr res).length = n*n := by
        rw [eigWriteRealCol_length, hlen]
      rcases List.mem_cons.mp h with h1 | h1
      · simp only [Prod.mk.injEq] at h1
        obtain ⟨rfl, rfl⟩ := h1
        refine ⟨fun _ r hr => ?_, fun hb => absurd hb (by simp)⟩
        rw [hloop]
        rw [eigvecsLoop_preserve n wi vr d f (c+1) _ hlen' hwf' r c hr hc (by omega)]
        rw [eigWriteRealCol_getD n c vr res hlen hc d r c hr hc]
        simp
      · have := ih (col0+1) _ hlen' hwf' c b h1
        rw [hloop]
        exact this
    · rw [if_neg hz] at h
      have hpair : col0 + 1 < n := by
        refine hwf col0 true ?_ rfl
        simp only [eigScan, if_pos hc, if_neg hz]
        exact List.mem_cons_self _ _
      have hloop : eigvecsLoop n wi vr (f+1) col0 res =
          eigvecsLoop n wi vr f (col0+2) (eigWritePairCols n col0 vr res) := by
        simp only [eigvecsLoop, if_pos hc, if_neg hz]
      have hwf' : ∀ c b, (c, b) ∈ eigScan n wi f (col0+2) → b = true → c + 1 < n := by
        intro c b hm
        exact hwf c b (by
          simp only [eigScan, if_pos hc, if_neg hz]
          exact List.mem_cons_of_mem _ hm)
      have hlen' : (eigWritePairCols n col0 vr res).length = n*n := by
        rw [eigWritePairCols_length, hlen]
      rcases List.mem_cons.mp h with h1 | h1
      · simp only [Prod.mk.injEq] at h1
        obtain ⟨rfl, rfl⟩ := h1
        refine ⟨fun hb => absurd hb (by simp), fun _ r hr => ?_⟩
        rw [hloop]
        constructor
        · rw [eigvecsLoop_preserve n wi vr d f (c+2) _ hlen' hwf' r c hr hc (by omega)]
          rw [eigWritePairCols_getD n c vr res hlen hpair d r c hr hc]
          simp
        · rw [eigvecsLoop_preserve n wi vr d f (c+2) _ hlen' hwf' r (c+1) hr hpair (by omega)]
          rw [eigWritePairCols_getD n c vr res hlen hpair d r (c+1) hr hpair]
          rw [if_neg (by omega), if_pos rfl]
      · have := ih (col0+2) _ hlen' hwf' c b h1
        rw [hloop]
        exact this

-- ==========================================
-- C9: the claim theorem
-- ==========================================

/-- C9: for every solver output (`wi`, `vr`) whose conjugate pairs fit (the
LAPACK convention: a nonzero `wi[col]` met by the scan has a partner column
`col+1 < n`), the packaging loop of `brix_eigvecs` satisfies: a scan position
with `wi[col] = 0` yields result column `col` real (entries from `vr` column
`col`, zero imaginary parts) and the scan advances by one; a scan position
with `wi[col] ≠ 0` yields result column `col` with real parts from `vr`
column `col` and imaginary parts from `vr` column `col+1`, result column
`col+1` its complex conjugate, and the scan advances by two. -/
theorem claim_C9_eigvec_pairing (n : Nat) (wi vr : List F64)
    (hwf : ∀ c b, (c, b) ∈ eigScanAll n wi → b = true → c + 1 < n) :
    ∀ c b, (c, b) ∈ eigScanAll n wi →
      (c < n ∧ (b = false ↔ (wi.getD c F64.zero).isZero = true)) ∧
      (b = false → c + 1 < n → ∃ b', (c + 1, b') ∈ eigScanAll n wi) ∧
      (b = true → c + 2 < n → ∃ b', (c + 2, b') ∈ eigScanAll n wi) ∧
      (b = false → ∀ r, r < n →
        (eigvecsPack n wi vr).getD (r*n+c) ⟨F64.zero, F64.zero⟩ =
          ⟨vr.getD (c*n+r) F64.zero, F64.zero⟩) ∧
      (b = true → ∀ r, r < n →
        (eigvecsPack n wi vr).getD (r*n+c) ⟨F64.zero, F64.zero⟩ =
          ⟨vr.getD (c*n+r) F64.zero, vr.getD ((c+1)*n+r) F64.zero⟩ ∧
        (eigvecsPack n wi vr).getD (r*n+(c+1)) ⟨F64.zero, F64.zero⟩ =
          ⟨vr.getD (c*n+r) F64.zero, fneg (vr.getD ((c+1)*n+r) F64.zero)⟩) := by
  intro c b h
  have hm := eigScan_mem n wi n 0 c b h
  have hn := eigScan_next n wi n 0 (by omega) c b h
  have he := eigvecsLoop_entries n wi vr ⟨F64.zero, F64.zero⟩ n 0
    (List.replicate (n*n) ⟨F64.zero, F64.zero⟩) (List.length_replicate _ _) hwf c b h
  exact ⟨hm, hn.1, hn.2, he.1, he.2⟩

/-- Witness for C9: n = 2, eigenvalue imaginary parts `wi = [1, -1]` (one
conjugate pair), packed eigenvectors `vr = [1, 2, 3, 4]`. -/
theorem claim_C9_eigvec_pairing_witness :
    (eigvecsPack 2 [F64.ofInt 1, F64.ofInt (-1)]
        [F64.ofInt 1, F64.ofInt 2, F64.ofInt 3, F64.ofInt 4]).getD 0 ⟨F64.zero, F64.zero⟩ =
      ⟨F64.ofInt 1, F64.ofInt 3⟩ ∧
    (eigvecsPack 2 [F64.ofInt 1, F64.ofInt (-1)]
        [F64.ofInt 1, F64.ofInt 2, F64.ofInt 3, F64.ofInt 4]).getD 1 ⟨F64.zero, F64.zero⟩ =
      ⟨F64.ofInt 1, fneg (F64.ofInt 3)⟩ := by
  have hwf : ∀ c b, (c, b) ∈ eigScanAll 2 [F64.ofInt 1, F64.ofInt (-1)] →
      b = true → c + 1 < 2 := by
    intro c b hm _
    have hs : eigScanAll 2 [F64.ofInt 1, F64.ofInt (-1)] = [(0, true)] := by decide
    rw [hs] at hm
    simp only [List.mem_singleton, Prod.mk.injEq] at hm
    omega
  have h := (claim_C9_eigvec_pairing 2 [F64.ofInt 1, F64.ofInt (-1)]
      [F64.ofInt 1, F64.ofInt 2, F64.ofInt 3, F64.ofInt 4]
      hwf 0 true (by decide)).2.2.2.2 rfl 0 (by decide)
  exact ⟨h.1, h.2⟩

-- ==========================================
-- C7: inverse of [[1,2],[3,4]] in binary64
-- ==========================================

set_option maxRecDepth 10000 in
/-- C7 counterexample: `brix_inv` on [[1,2],[3,4]] does not return exactly
[[-2, 1], [1.5, -0.5]].  The Gauss-Jordan elimination rounds `4/3` and `1/3`,
and the final entries each miss the exact value by a few ulp. -/
theorem claim_C7_inv_exact_counterexample :
    brix_inv ⟨1, 2, 2, [F64.ofInt 1, F64.ofInt 2, F64.ofInt 3, F64.ofInt 4]⟩ ≠
      some ⟨1, 2, 2, [F64.ofInt (-2), F64.ofInt 1, ⟨3, -1⟩, ⟨-1, -1⟩]⟩ := by
  decide

set_option maxRecDepth 10000 in
/-- C7 (amended): under the implemented Gauss-Jordan elimination with partial
pivoting in binary64, `brix_inv([[1,2],[3,4]])` returns the fresh 2x2 matrix
with entries `-2 + 2^-51`, `1 - 2^-52`, `1.5 - 2^-52`, `-0.5 + 2^-54`
(approximately -1.9999999999999996, 0.9999999999999998, 1.4999999999999998,
-0.49999999999999994): equal to [[-2,1],[1.5,-0.5]] only up to rounding
(within 5e-16 per entry), not exactly. -/
theorem claim_C7_inv_computed :
    brix_inv ⟨1, 2, 2, [F64.ofInt 1, F64.ofInt 2, F64.ofInt 3, F64.ofInt 4]⟩ =
      some ⟨1, 2, 2, [⟨-4503599627370495, -51⟩, ⟨4503599627370495, -52⟩,
                      ⟨6755399441055743, -52⟩, ⟨-9007199254740991, -54⟩]⟩ := by
  decide

-- ==========================================
-- C5/C6: flat-buffer loop characterizations
-- ==========================================

theorem flatW_lt {rows w r q : Nat} (hr : r < rows) (hq : q < w) : r*w+q < rows*w := by
  calc r*w+q < r*w+w := by omega
    _ = (r+1)*w := by ring
    _ ≤ rows*w := Nat.mul_le_mul_right w hr

theorem flatW_inj {w r r' q q' : Nat} (hq : q < w) (hq' : q' < w)
    (h : r*w+q = r'*w+q') : r = r' ∧ q = q' := by
  have hw : 0 < w := by omega
  have h1 : (r*w+q) % w = q := by
    rw [Nat.add_mod, Nat.mul_mod_left, Nat.zero_add, Nat.mod_mod_of_dvd,
      Nat.mod_eq_of_lt hq]
    exact Dvd.intro 1 (by ring)
  have h2 : (r'*w+q') % w = q' := by
    rw [Nat.add_mod, Nat.mul_mod_left, Nat.zero_add, Nat.mod_mod_of_dvd,
      Nat.mod_eq_of_lt hq']
    exact Dvd.intro 1 (by ring)
  have hqq : q = q' := by rw [← h1, ← h2, h]
  refine ⟨?_, hqq⟩
  subst hqq
  have : r * w = r' * w := by omega
  exact Nat.eq_of_mul_eq_mul_right hw this

theorem swapRowsF_length (w i p : Nat) (a : List F64) :
    (swapRowsF w i p a).length = a.length :=
  foldl_length_preserved _ (fun b _ => by rw [List.length_set, List.length_set]) _ a

theorem swapRowsF_getD (w n i p : Nat) (a : List F64) (hlen : a.length = n*w)
    (hi : i < n) (hp : p < n) :
    ∀ r q, r < n → q < w →
      (swapRowsF w i p a).getD (r*w+q) F64.zero =
        if r = i then a.getD (p*w+q) F64.zero
        else if r = p then a.getD (i*w+q) F64.zero
        else a.getD (r*w+q) F64.zero := by
  suffices h : ∀ c, c ≤ w → ∀ r q, r < n → q < w →
      ((List.range c).foldl (fun acc k =>
          (acc.set (i*w+k) (acc.getD (p*w+k) F64.zero)).set (p*w+k)
            (acc.getD (i*w+k) F64.zero)) a).getD (r*w+q) F64.zero =
        if q < c then
          (if r = i then a.getD (p*w+q) F64.zero
           else if r = p then a.getD (i*w+q) F64.zero
           else a.getD (r*w+q) F64.zero)
        else a.getD (r*w+q) F64.zero by
    intro r q hr hq
    have hh := h w (le_refl w) r q hr hq
    simp only [swapRowsF]
    rw [hh, if_pos hq]
  intro c
  induction c with
  | zero => intro _ r q hr hq; simp
  | succ c ih =>
    intro hc r q hr hq
    rw [List.range_succ, List.foldl_append, List.foldl_cons, List.foldl_nil]
    have hcw : c < w := by omega
    set G := (List.range c).foldl (fun acc k =>
        (acc.set (i*w+k) (acc.getD (p*w+k) F64.zero)).set (p*w+k)
          (acc.getD (i*w+k) F64.zero)) a with hG
    have hlen' : G.length = n*w := by
      rw [hG, foldl_length_preserved _
        (fun b _ => by rw [List.length_set, List.length_set]), hlen]
    have hGp : G.getD (p*w+c) F64.zero = a.getD (p*w+c) F64.zero := by
      rw [ih (by omega) p c hp hcw, if_neg (by omega)]
    have hGi : G.getD (i*w+c) F64.zero = a.getD (i*w+c) F64.zero := by
      rw [ih (by omega) i c hi hcw, if_neg (by omega)]
    by_cases hqc : q = c
    · by_cases hrp : r = p
      · rw [show r*w+q = p*w+c from by rw [hrp, hqc]]
        rw [getD_set_self _ _ _ _ (by rw [List.length_set, hlen']; exact flatW_lt hp hcw)]
        rw [hGi, if_pos (show q < c+1 from by omega)]
        by_cases hri : r = i
        · rw [if_pos hri, show p*w+q = i*w+c from by rw [← hri, hrp, hqc]]
        · rw [if_neg hri, if_pos hrp, hqc]
      · rw [getD_set_ne _ _ _ _ _
            (show p*w+c ≠ r*w+q from fun hh => hrp (flatW_inj hcw hq hh).1.symm)]
        by_cases hri : r = i
        · rw [show r*w+q = i*w+c from by rw [hri, hqc]]
          rw [getD_set_self _ _ _ _ (by rw [hlen']; exact flatW_lt hi hcw)]
          rw [hGp, if_pos (show q < c+1 from by omega), if_pos hri, hqc]
        · rw [getD_set_ne _ _ _ _ _
              (show i*w+c ≠ r*w+q from fun hh => hri (flatW_inj hcw hq hh).1.symm)]
          rw [ih (by omega) r q hr hq, if_neg (show ¬ (q < c) from by omega),
            if_pos (show q < c+1 from by omega), if_neg hri, if_neg hrp]
    · rw [getD_set_ne _ _ _ _ _
          (show p*w+c ≠ r*w+q from fun hh => hqc (flatW_inj hcw hq hh).2.symm)]
      rw [getD_set_ne _ _ _ _ _
          (show i*w+c ≠ r*w+q from fun hh => hqc (flatW_inj hcw hq hh).2.symm)]
      rw [ih (by omega) r q hr hq]
      by_cases hqlt : q < c
      · rw [if_pos hqlt, if_pos (show q < c+1 from by omega)]
      · rw [if_neg hqlt, if_neg (show ¬ (q < c+1) from by omega)]

theorem pivot_fold_prop (F : Nat → F64) (P : Nat → Prop) :
    ∀ (l : List Nat) (p : Nat), P p → (∀ j ∈ l, P j) →
      P (l.foldl (fun p j => if flt (fabs (F p)) (fabs (F j)) then j else p) p) := by
  intro l
  induction l with
  | nil => intro p hp _; exact hp
  | cons x t ih =>
    intro p hp hl
    rw [List.foldl_cons]
    by_cases hc : flt (fabs (F p)) (fabs (F x)) = true
    · rw [if_pos hc]
      exact ih x (hl x (List.mem_cons_self _ _)) (fun j hj => hl j (List.mem_cons_of_mem _ hj))
    · rw [if_neg hc]
      exact ih p hp (fun j hj => hl j (List.mem_cons_of_mem _ hj))

theorem pivot_fold_congr (F G : Nat → F64) (P : Nat → Prop)
    (hFG : ∀ x, P x → F x = G x) :
    ∀ (l : List Nat) (p : Nat), P p → (∀ j ∈ l, P j) →
      l.foldl (fun p j => if flt (fabs (F p)) (fabs (F j)) then j else p) p =
      l.foldl (fun p j => if flt (fabs (G p)) (fabs (G j)) then j else p) p := by
  intro l
  induction l with
  | nil => intro p _ _; rfl
  | cons x t ih =>
    intro p hp hl
    rw [List.foldl_cons, List.foldl_cons]
    rw [hFG p hp, hFG x (hl x (List.mem_cons_self _ _))]
    by_cases hc : flt (fabs (G p)) (fabs (G x)) = true
    · rw [if_pos hc]
      exact ih x (hl x (List.mem_cons_self _ _)) (fun j hj => hl j (List.mem_cons_of_mem _ hj))
    · rw [if_neg hc]
      exact ih p hp (fun j hj => hl j (List.mem_cons_of_mem _ hj))

theorem rcGet_toRows (w n : Nat) (a : List F64) (r q : Nat) (hr : r < n) (hq : q < w) :
    rcGet (toRows w n a) r q = a.getD (r*w+q) F64.zero := by
  simp only [rcGet, toRows]
  rw [show ∀ (l : List (List F64)) (j : Nat), l.getD j [] = l.getD j [] from fun _ _ => rfl]
  rw [getD_range_map _ _ _ _ hr, getD_range_map _ _ _ _ hq]

theorem toRows_length (w n : Nat) (a : List F64) : (toRows w n a).length = n := by
  simp [toRows]

theorem toRows_row_length (w n : Nat) (a : List F64) (r : Nat) (hr : r < n) :
    ((toRows w n a).getD r []).length = w := by
  simp only [toRows]
  rw [getD_range_map _ _ _ _ hr]
  simp

theorem pivotSearchF_mem (w c' n i : Nat) (a : List F64) (hi : i < n) :
    i ≤ pivotSearchF w c' n i a ∧ pivotSearchF w c' n i a < n := by
  refine pivot_fold_prop (fun x => a.getD (x*w+c') F64.zero) (fun x => i ≤ x ∧ x < n)
    _ i ⟨le_refl i, hi⟩ ?_
  intro j hj
  rw [List.mem_range'_1] at hj
  omega

theorem pivotSearchF_eq_spec (w c' n i : Nat) (a : List F64) (hi : i < n) (hc' : c' < w) :
    pivotSearchF w c' n i a = specPivotRow n i c' (toRows w n a) := by
  simp only [pivotSearchF, specPivotRow]
  refine pivot_fold_congr (fun x => a.getD (x*w+c') F64.zero)
    (fun x => rcGet (toRows w n a) x c') (fun x => x < n) ?_ _ i hi ?_
  · intro x hx
    exact (rcGet_toRows w n a x c' hx hc').symm
  · intro j hj
    rw [List.mem_range'_1] at hj
    omega

theorem range'_concat1 (s n : Nat) : List.range' s (n+1) = List.range' s n ++ [s+n] := by
  rw [List.range'_concat]
  norm_num

theorem elimRowPass_length (w i j : Nat) (φ : F64) (acc : List F64) (l : List Nat) :
    (l.foldl (fun acc2 k => acc2.set (j*w+k)
      (fsub (acc2.getD (j*w+k) F64.zero) (fmul φ (acc2.getD (i*w+k) F64.zero)))) acc).length
      = acc.length :=
  foldl_length_preserved _ (fun b _ => List.length_set b _ _) _ acc

theorem elimRowPass_getD (w n i j : Nat) (φ : F64) (acc : List F64)
    (hlen : acc.length = n*w) (hi : i < n) (hj : j < n) (hij : j ≠ i) (s : Nat) :
    ∀ c, s + c ≤ w → ∀ r q, r < n → q < w →
      List.getD ((List.range' s c).foldl (fun acc2 k => acc2.set (j*w+k)
          (fsub (acc2.getD (j*w+k) F64.zero) (fmul φ (acc2.getD (i*w+k) F64.zero)))) acc)
        (r*w+q) F64.zero =
        if r = j ∧ s ≤ q ∧ q < s + c then
          fsub (acc.getD (j*w+q) F64.zero) (fmul φ (acc.getD (i*w+q) F64.zero))
        else acc.getD (r*w+q) F64.zero := by
  intro c
  induction c with
  | zero =>
    intro _ r q hr hq
    rw [if_neg (by rintro ⟨-, h1, h2⟩; omega)]
    rfl
  | succ c ih =>
    intro hc r q hr hq
    rw [range'_concat1, List.foldl_append, List.foldl_cons, List.foldl_nil]
    set G := (List.range' s c).foldl (fun acc2 k => acc2.set (j*w+k)
        (fsub (acc2.getD (j*w+k) F64.zero) (fmul φ (acc2.getD (i*w+k) F64.zero)))) acc with hG
    have hlenG : G.length = n*w := by rw [hG, elimRowPass_length, hlen]
    have hGjc : G.getD (j*w+(s+c)) F64.zero = acc.getD (j*w+(s+c)) F64.zero := by
      rw [ih (by omega) j (s+c) hj (by omega), if_neg (by rintro ⟨-, -, h⟩; omega)]
    have hGic : G.getD (i*w+(s+c)) F64.zero = acc.getD (i*w+(s+c)) F64.zero := by
      rw [ih (by omega) i (s+c) hi (by omega),
        if_neg (by rintro ⟨h, -, -⟩; exact hij h.symm)]
    by_cases hqidx : r*w+q = j*w+(s+c)
    · obtain ⟨hrj, hqsc⟩ := flatW_inj hq (by omega) hqidx
      rw [hqidx]
      rw [getD_set_self _ _ _ _ (by rw [hlenG]; exact flatW_lt hj (by omega))]
      rw [hGjc, hGic]
      rw [if_pos ⟨hrj, by omega, by omega⟩, hqsc]
    · rw [getD_set_ne _ _ _ _ _ (fun hh => hqidx hh.symm)]
      rw [ih (by omega) r q hr hq]
      by_cases hcond : r = j ∧ s ≤ q ∧ q < s + c
      · rw [if_pos hcond, if_pos ⟨hcond.1, hcond.2.1, by omega⟩]
      · rw [if_neg hcond, if_neg (by
          rintro ⟨h1, h2, h3⟩
          by_cases hqe : q = s + c
          · exact hqidx (by rw [h1, hqe])
          · exact hcond ⟨h1, h2, by omega⟩)]

theorem detElimF_length (n i : Nat) (a : List F64) : (detElimF n i a).length = a.length := by
  refine foldl_length_preserved _ ?_ _ a
  intro b j
  exact elimRowPass_length n i j _ b _

theorem detElimF_getD (n i : Nat) (a : List F64) (hlen : a.length = n*n) (hi : i < n) :
    ∀ r q, r < n → q < n →
      (detElimF n i a).getD (r*n+q) F64.zero =
        if i < r ∧ i ≤ q then
          fsub (a.getD (r*n+q) F64.zero)
            (fmul (fdiv (a.getD (r*n+i) F64.zero) (a.getD (i*n+i) F64.zero))
              (a.getD (i*n+q) F64.zero))
        else a.getD (r*n+q) F64.zero := by
  suffices h : ∀ c, i+1+c ≤ n → ∀ r q, r < n → q < n →
      List.getD ((List.range' (i+1) c).foldl (fun acc j =>
          (List.range' i (n-i)).foldl (fun acc2 k => acc2.set (j*n+k)
            (fsub (acc2.getD (j*n+k) F64.zero)
              (fmul (fdiv (acc.getD (j*n+i) F64.zero) (acc.getD (i*n+i) F64.zero))
                (acc2.getD (i*n+k) F64.zero)))) acc) a)
        (r*n+q) F64.zero =
        if i+1 ≤ r ∧ r < i+1+c ∧ i ≤ q then
          fsub (a.getD (r*n+q) F64.zero)
            (fmul (fdiv (a.getD (r*n+i) F64.zero) (a.getD (i*n+i) F64.zero))
              (a.getD (i*n+q) F64.zero))
        else a.getD (r*n+q) F64.zero by
    intro r q hr hq
    have hh := h (n-(i+1)) (by omega) r q hr hq
    have hd : detElimF n i a = (List.range' (i+1) (n-(i+1))).foldl (fun acc j =>
        (List.range' i (n-i)).foldl (fun acc2 k => acc2.set (j*n+k)
          (fsub (acc2.getD (j*n+k) F64.zero)
            (fmul (fdiv (acc.getD (j*n+i) F64.zero) (acc.getD (i*n+i) F64.zero))
              (acc2.getD (i*n+k) F64.zero)))) acc) a := rfl
    rw [hd, hh]
    by_cases h1 : i < r ∧ i ≤ q
    · rw [if_pos ⟨by omega, by omega, h1.2⟩, if_pos h1]
    · rw [if_neg (by rintro ⟨h2, h3, h4⟩; exact h1 ⟨by omega, h4⟩), if_neg h1]
  intro c
  induction c with
  | zero =>
    intro _ r q hr hq
    rw [if_neg (by rintro ⟨h1, h2, -⟩; omega)]
    rfl
  | succ c ih =>
    intro hc r q hr hq
    rw [range'_concat1, List.foldl_append, List.foldl_cons, List.foldl_nil]
    set G := (List.range' (i+1) c).foldl (fun acc j =>
        (List.range' i (n-i)).foldl (fun acc2 k => acc2.set (j*n+k)
          (fsub (acc2.getD (j*n+k) F64.zero)
            (fmul (fdiv (acc.getD (j*n+i) F64.zero) (acc.getD (i*n+i) F64.zero))
              (acc2.getD (i*n+k) F64.zero)))) acc) a with hGdef
    have hlenG : G.length = n*n := by
      rw [hGdef]
      rw [foldl_length_preserved _ (fun b j => elimRowPass_length n i j _ b _), hlen]
    have hGji : G.getD ((i+1+c)*n+i) F64.zero = a.getD ((i+1+c)*n+i) F64.zero := by
      rw [ih (by omega) (i+1+c) i (by omega) hi, if_neg (by rintro ⟨-, h, -⟩; omega)]
    have hGii : G.getD (i*n+i) F64.zero = a.getD (i*n+i) F64.zero := by
      rw [ih (by omega) i i hi hi, if_neg (by rintro ⟨h, -, -⟩; omega)]
    have hpass := elimRowPass_getD n n i (i+1+c)
      (fdiv (G.getD ((i+1+c)*n+i) F64.zero) (G.getD (i*n+i) F64.zero)) G hlenG hi
      (by omega) (by omega) i (n-i) (by omega) r q hr hq
    rw [hpass]
    by_cases hrj : r = i+1+c
    · by_cases hiq : i ≤ q
      · rw [if_pos (show r = i+1+c ∧ i ≤ q ∧ q < i + (n-i) from ⟨hrj, hiq, by omega⟩)]
        rw [if_pos (show i+1 ≤ r ∧ r < i+1+(c+1) ∧ i ≤ q from ⟨by omega, by omega, hiq⟩)]
        have h1 : G.getD ((i+1+c)*n+q) F64.zero = a.getD ((i+1+c)*n+q) F64.zero := by
          rw [ih (by omega) (i+1+c) q (by omega) hq, if_neg (by rintro ⟨-, h, -⟩; omega)]
        have h2 : G.getD (i*n+q) F64.zero = a.getD (i*n+q) F64.zero := by
          rw [ih (by omega) i q hi hq, if_neg (by rintro ⟨h, -, -⟩; omega)]
        rw [hGji, hGii, h1, h2, hrj]
      · rw [if_neg (show ¬(r = i+1+c ∧ i ≤ q ∧ q < i + (n-i)) from
            by rintro ⟨-, h, -⟩; exact hiq h)]
        rw [ih (by omega) r q hr hq,
          if_neg (show ¬(i+1 ≤ r ∧ r < i+1+c ∧ i ≤ q) from
            by rintro ⟨-, -, h⟩; exact hiq h),
          if_neg (show ¬(i+1 ≤ r ∧ r < i+1+(c+1) ∧ i ≤ q) from
            by rintro ⟨-, -, h⟩; exact hiq h)]
    · rw [if_neg (show ¬(r = i+1+c ∧ i ≤ q ∧ q < i + (n-i)) from
          by rintro ⟨h, -, -⟩; exact hrj h)]
      rw [ih (by omega) r q hr hq]
      by_cases hcond : i+1 ≤ r ∧ r < i+1+c ∧ i ≤ q
      · rw [if_pos hcond,
          if_pos (show i+1 ≤ r ∧ r < i+1+(c+1) ∧ i ≤ q from ⟨hcond.1, by omega, hcond.2.2⟩)]
      · rw [if_neg hcond,
          if_neg (show ¬(i+1 ≤ r ∧ r < i+1+(c+1) ∧ i ≤ q) from by
            rintro ⟨h1, h2, h3⟩
            exact hcond ⟨h1, by omega, h3⟩)]

theorem range_map_ext {α : Type} (d : α) (w : Nat) (f g : Nat → α)
    (h : ∀ k, k < w → f k = g k) : (List.range w).map f = (List.range w).map g := by
  apply list_ext_getD d
  · simp
  · intro k hk
    rw [length_range_map] at hk
    rw [getD_range_map _ _ _ _ hk, getD_range_map _ _ _ _ hk]
    exact h k hk

theorem toRows_row (w n : Nat) (a : List F64) (r : Nat) (hr : r < n) :
    (toRows w n a).getD r [] = (List.range w).map (fun k => a.getD (r*w+k) F64.zero) := by
  simp only [toRows]
  rw [getD_range_map _ _ _ _ hr]

theorem toRows_swapRowsF (w n i p : Nat) (a : List F64) (hlen : a.length = n*w)
    (hi : i < n) (hp : p < n) :
    toRows w n (swapRowsF w i p a) = specSwapRows (toRows w n a) i p := by
  apply list_ext_getD ([] : List F64)
  · rw [toRows_length]
    simp only [specSwapRows]
    rw [List.length_set, List.length_set, toRows_length]
  · intro r hr
    rw [toRows_length] at hr
    rw [toRows_row w n _ r hr]
    simp only [specSwapRows]
    by_cases hrp : r = p
    · rw [hrp, getD_set_self _ _ _ _ (by rw [List.length_set, toRows_length]; exact hp)]
      rw [toRows_row w n a i hi]
      refine range_map_ext F64.zero w _ _ ?_
      intro k hk
      rw [swapRowsF_getD w n i p a hlen hi hp p k hp hk]
      by_cases hpi : p = i
      · rw [if_pos hpi, hpi]
      · rw [if_neg hpi, if_pos rfl]
    · rw [getD_set_ne _ _ _ _ _ (fun hh => hrp hh.symm)]
      by_cases hri : r = i
      · rw [hri, getD_set_self _ _ _ _ (by rw [toRows_length]; exact hi)]
        rw [toRows_row w n a p hp]
        refine range_map_ext F64.zero w _ _ ?_
        intro k hk
        rw [swapRowsF_getD w n i p a hlen hi hp i k hi hk, if_pos rfl]
      · rw [getD_set_ne _ _ _ _ _ (fun hh => hri hh.symm)]
        rw [toRows_row w n a r hr]
        refine range_map_ext F64.zero w _ _ ?_
        intro k hk
        rw [swapRowsF_getD w n i p a hlen hi hp r k hr hk, if_neg hri, if_neg hrp]

theorem toRows_detElimF (n i : Nat) (a : List F64) (hlen : a.length = n*n) (hi : i < n) :
    toRows n n (detElimF n i a) = specElimBelow n i (toRows n n a) := by
  apply list_ext_getD ([] : List F64)
  · rw [toRows_length]
    simp [specElimBelow]
  · intro r hr
    rw [toRows_length] at hr
    rw [toRows_row n n _ r hr]
    simp only [specElimBelow]
    rw [getD_range_map _ _ _ _ hr]
    by_cases hjle : r ≤ i
    · rw [if_pos hjle, toRows_row n n a r hr]
      refine range_map_ext F64.zero n _ _ ?_
      intro k hk
      rw [detElimF_getD n i a hlen hi r k hr hk, if_neg (by rintro ⟨h, -⟩; omega)]
    · rw [if_neg hjle]
      refine range_map_ext F64.zero n _ _ ?_
      intro k hk
      rw [detElimF_getD n i a hlen hi r k hr hk]
      by_cases hki : k < i
      · rw [if_neg (by rintro ⟨-, h⟩; omega), if_pos hki]
        rw [rcGet_toRows n n a r k hr hk]
      · rw [if_pos ⟨by omega, by omega⟩, if_neg hki]
        rw [rcGet_toRows n n a r k hr hk, rcGet_toRows n n a r i hr hi,
          rcGet_toRows n n a i i hi hi, rcGet_toRows n n a i k hi hk]

theorem detLoopF_eq_spec (n : Nat) :
    ∀ steps i a det, i + steps ≤ n → a.length = n*n →
      detLoopF n i steps a det = detSpecLoop n i steps (toRows n n a) det := by
  intro steps
  induction steps with
  | zero => intro i a det _ _; rfl
  | succ s ih =>
    intro i a det hin hlen
    have hi : i < n := by omega
    simp only [detLoopF, detSpecLoop]
    rw [← pivotSearchF_eq_spec n i n i a hi hi]
    obtain ⟨hip, hpn⟩ := pivotSearchF_mem n i n i a hi
    set p := pivotSearchF n i n i a with hpdef
    set a1 := if p ≠ i then swapRowsF n i p a else a with ha1
    have hlen1 : a1.length = n*n := by
      rw [ha1]
      by_cases hpi : p ≠ i
      · rw [if_pos hpi, swapRowsF_length, hlen]
      · rw [if_neg hpi, hlen]
    have hswap : toRows n n a1 = (if p ≠ i then specSwapRows (toRows n n a) i p
        else toRows n n a) := by
      rw [ha1]
      by_cases hpi : p ≠ i
      · rw [if_pos hpi, if_pos hpi]
        exact toRows_swapRowsF n n i p a hlen hi hpn
      · rw [if_neg hpi, if_neg hpi]
    rw [← hswap]
    rw [show rcGet (toRows n n a1) i i = a1.getD (i*n+i) F64.zero from
      rcGet_toRows n n a1 i i hi hi]
    by_cases hsmall : flt (fabs (a1.getD (i*n+i) F64.zero)) tol1em10 = true
    · rw [if_pos hsmall, if_pos hsmall]
    · rw [if_neg hsmall, if_neg hsmall]
      rw [← toRows_detElimF n i a1 hlen1 hi]
      rw [show rcGet (toRows n n (detElimF n i a1)) i i =
          (detElimF n i a1).getD (i*n+i) F64.zero from
        rcGet_toRows n n (detElimF n i a1) i i hi hi]
      exact ih (i+1) (detElimF n i a1) _ (by omega) (by rw [detElimF_length, hlen1])

-- ==========================================
-- C5: the claim theorem
-- ==========================================

/-- C5: `brix_det` returns 0.0 (a reported, non-fatal value) for a non-square
matrix; the single entry for a 1x1 matrix; `a*d - b*c` for a 2x2 matrix; and
for a square matrix of size at least 3 the result of the row-level Gaussian
elimination with partial pivoting on (a copy of) the data: select the row
with the largest absolute value in the pivot column, swap rows negating the
running value on each swap, return 0.0 as soon as a pivot magnitude falls
below 1e-10, eliminate below, and multiply the pivots. -/
theorem claim_C5_det (m : BrixMatrix) (hlen : m.data.length = m.rows * m.cols) :
    (m.rows ≠ m.cols → brix_det m = F64.zero) ∧
    (m.rows = m.cols → m.rows = 1 → brix_det m = m.data.getD 0 F64.zero) ∧
    (m.rows = m.cols → m.rows = 2 → brix_det m =
       fsub (fmul (m.data.getD 0 F64.zero) (m.data.getD 3 F64.zero))
            (fmul (m.data.getD 1 F64.zero) (m.data.getD 2 F64.zero))) ∧
    (m.rows = m.cols → 3 ≤ m.rows →
       brix_det m = detGaussSpec m.rows (toRows m.rows m.rows m.data)) := by
  refine ⟨?_, ?_, ?_, ?_⟩
  · intro hne
    simp only [brix_det]
    rw [if_pos hne]
  · intro hsq h1
    simp only [brix_det]
    rw [if_neg (fun h => h hsq), if_pos h1]
  · intro hsq h2
    simp only [brix_det]
    rw [if_neg (fun h => h hsq), if_neg (show ¬ (m.rows = 1) from by omega), if_pos h2]
  · intro hsq h3
    simp only [brix_det]
    rw [if_neg (fun h => h hsq), if_neg (show ¬ (m.rows = 1) from by omega),
      if_neg (show ¬ (m.rows = 2) from by omega)]
    exact detLoopF_eq_spec m.rows m.rows 0 m.data (F64.ofInt 1) (by omega)
      (by rw [hlen, ← hsq])

set_option maxRecDepth 10000 in
/-- Witness for C5: a non-square matrix, a 1x1, a 2x2, and a 3x3 diagonal
matrix (whose determinant the model evaluates to 24.0). -/
theorem claim_C5_det_witness :
    brix_det ⟨1, 2, 3, [F64.ofInt 1, F64.ofInt 2, F64.ofInt 3,
        F64.ofInt 4, F64.ofInt 5, F64.ofInt 6]⟩ = F64.zero ∧
    brix_det ⟨1, 1, 1, [F64.ofInt 7]⟩ = F64.ofInt 7 ∧
    brix_det ⟨1, 2, 2, [F64.ofInt 2, F64.zero, F64.zero, F64.ofInt 2]⟩ =
      fsub (fmul (F64.ofInt 2) (F64.ofInt 2)) (fmul F64.zero F64.zero) ∧
    brix_det ⟨1, 3, 3, [F64.ofInt 2, F64.zero, F64.zero, F64.zero, F64.ofInt 3,
        F64.zero, F64.zero, F64.zero, F64.ofInt 4]⟩ =
      detGaussSpec 3 (toRows 3 3 [F64.ofInt 2, F64.zero, F64.zero, F64.zero, F64.ofInt 3,
        F64.zero, F64.zero, F64.zero, F64.ofInt 4]) ∧
    brix_det ⟨1, 3, 3, [F64.ofInt 2, F64.zero, F64.zero, F64.zero, F64.ofInt 3,
        F64.zero, F64.zero, F64.zero, F64.ofInt 4]⟩ = F64.ofInt 24 :=
  ⟨(claim_C5_det ⟨1, 2, 3, [F64.ofInt 1, F64.ofInt 2, F64.ofInt 3,
        F64.ofInt 4, F64.ofInt 5, F64.ofInt 6]⟩ (by decide)).1 (by decide),
   (claim_C5_det ⟨1, 1, 1, [F64.ofInt 7]⟩ (by decide)).2.1 rfl rfl,
   (claim_C5_det ⟨1, 2, 2, [F64.ofInt 2, F64.zero, F64.zero, F64.ofInt 2]⟩
      (by decide)).2.2.1 rfl rfl,
   (claim_C5_det ⟨1, 3, 3, [F64.ofInt 2, F64.zero, F64.zero, F64.zero, F64.ofInt 3,
        F64.zero, F64.zero, F64.zero, F64.ofInt 4]⟩ (by decide)).2.2.2 rfl (by decide),
   by decide⟩

-- ==========================================
-- C6: inverse loop characterizations
-- ==========================================

theorem invScaleRowF_length (n i : Nat) (a : List F64) :
    (invScaleRowF n i a).length = a.length :=
  foldl_length_preserved _ (fun b _ => List.length_set b _ _) _ a

theorem invScaleRowF_getD (n i : Nat) (a : List F64) (hlen : a.length = n*(2*n))
    (hi : i < n) :
    ∀ r q, r < n → q < 2*n →
      (invScaleRowF n i a).getD (r*(2*n)+q) F64.zero =
        if r = i then fdiv (a.getD (i*(2*n)+q) F64.zero) (a.getD (i*(2*n)+i) F64.zero)
        else a.getD (r*(2*n)+q) F64.zero := by
  suffices h : ∀ c, c ≤ 2*n → ∀ r q, r < n → q < 2*n →
      List.getD ((List.range c).foldl (fun acc k => acc.set (i*(2*n)+k)
          (fdiv (acc.getD (i*(2*n)+k) F64.zero) (a.getD (i*(2*n)+i) F64.zero))) a)
        (r*(2*n)+q) F64.zero =
        if r = i ∧ q < c then
          fdiv (a.getD (i*(2*n)+q) F64.zero) (a.getD (i*(2*n)+i) F64.zero)
        else a.getD (r*(2*n)+q) F64.zero by
    intro r q hr hq
    have hd : invScaleRowF n i a = (List.range (2*n)).foldl (fun acc k => acc.set (i*(2*n)+k)
        (fdiv (acc.getD (i*(2*n)+k) F64.zero) (a.getD (i*(2*n)+i) F64.zero))) a := rfl
    rw [hd, h (2*n) (le_refl _) r q hr hq]
    by_cases hri : r = i
    · rw [if_pos ⟨hri, hq⟩, if_pos hri]
    · rw [if_neg (by rintro ⟨h1, -⟩; exact hri h1), if_neg hri]
  intro c
  induction c with
  | zero =>
    intro _ r q hr hq
    rw [if_neg (by rintro ⟨-, h⟩; omega)]
    rfl
  | succ c ih =>
    intro hc r q hr hq
    rw [List.range_succ, List.foldl_append, List.foldl_cons, List.foldl_nil]
    set G := (List.range c).foldl (fun acc k => acc.set (i*(2*n)+k)
        (fdiv (acc.getD (i*(2*n)+k) F64.zero) (a.getD (i*(2*n)+i) F64.zero))) a with hG
    have hlenG : G.length = n*(2*n) := by
      rw [hG, foldl_length_preserved _ (fun b _ => List.length_set b _ _), hlen]
    have hGic : G.getD (i*(2*n)+c) F64.zero = a.getD (i*(2*n)+c) F64.zero := by
      rw [ih (by omega) i c hi (by omega), if_neg (by rintro ⟨-, h⟩; omega)]
    by_cases hqidx : r*(2*n)+q = i*(2*n)+c
    · obtain ⟨hri, hqc⟩ := flatW_inj hq (by omega) hqidx
      rw [hqidx]
      rw [getD_set_self _ _ _ _ (by rw [hlenG]; exact flatW_lt hi (by omega))]
      rw [hGic, if_pos ⟨hri, by omega⟩, hqc]
    · rw [getD_set_ne _ _ _ _ _ (fun hh => hqidx hh.symm)]
      rw [ih (by omega) r q hr hq]
      by_cases hcond : r = i ∧ q < c
      · rw [if_pos hcond, if_pos ⟨hcond.1, by omega⟩]
      · rw [if_neg hcond, if_neg (by
          rintro ⟨h1, h2⟩
          by_cases hqe : q = c
          · exact hqidx (by rw [h1, hqe])
          · exact hcond ⟨h1, by omega⟩)]

theorem invElimF_length (n i : Nat) (a : List F64) : (invElimF n i a).length = a.length := by
  refine foldl_length_preserved _ ?_ _ a
  intro b j
  by_cases hj : j ≠ i
  · show (if j ≠ i then _ else b).length = b.length
    rw [if_pos hj]
    exact foldl_length_preserved _ (fun b2 _ => List.length_set b2 _ _) _ b
  · show (if j ≠ i then _ else b).length = b.length
    rw [if_neg hj]

theorem invElimF_getD (n i : Nat) (a : List F64) (hlen : a.length = n*(2*n)) (hi : i < n) :
    ∀ r q, r < n → q < 2*n →
      (invElimF n i a).getD (r*(2*n)+q) F64.zero =
        if r ≠ i then
          fsub (a.getD (r*(2*n)+q) F64.zero)
            (fmul (a.getD (r*(2*n)+i) F64.zero) (a.getD (i*(2*n)+q) F64.zero))
        else a.getD (r*(2*n)+q) F64.zero := by
  suffices h : ∀ c, c ≤ n → ∀ r q, r < n → q < 2*n →
      List.getD ((List.range c).foldl (fun acc j =>
          if j ≠ i then
            (List.range (2*n)).foldl (fun acc2 k => acc2.set (j*(2*n)+k)
              (fsub (acc2.getD (j*(2*n)+k) F64.zero)
                (fmul (acc.getD (j*(2*n)+i) F64.zero)
                  (acc2.getD (i*(2*n)+k) F64.zero)))) acc
          else acc) a)
        (r*(2*n)+q) F64.zero =
        if r < c ∧ r ≠ i then
          fsub (a.getD (r*(2*n)+q) F64.zero)
            (fmul (a.getD (r*(2*n)+i) F64.zero) (a.getD (i*(2*n)+q) F64.zero))
        else a.getD (r*(2*n)+q) F64.zero by
    intro r q hr hq
    have hd : invElimF n i a = (List.range n).foldl (fun acc j =>
        if j ≠ i then
          (List.range (2*n)).foldl (fun acc2 k => acc2.set (j*(2*n)+k)
            (fsub (acc2.getD (j*(2*n)+k) F64.zero)
              (fmul (acc.getD (j*(2*n)+i) F64.zero)
                (acc2.getD (i*(2*n)+k) F64.zero)))) acc
        else acc) a := rfl
    rw [hd, h n (le_refl _) r q hr hq]
    by_cases hri : r ≠ i
    · rw [if_pos ⟨hr, hri⟩, if_pos hri]
    · rw [if_neg (by rintro ⟨-, h1⟩; exact hri h1), if_neg hri]
  intro c
  induction c with
  | zero =>
    intro _ r q hr hq
    rw [if_neg (by rintro ⟨h1, -⟩; omega)]
    rfl
  | succ c ih =>
    intro hc r q hr hq
    rw [List.range_succ, List.foldl_append, List.foldl_cons, List.foldl_nil]
    set G := (List.range c).foldl (fun acc j =>
        if j ≠ i then
          (List.range (2*n)).foldl (fun acc2 k => acc2.set (j*(2*n)+k)
            (fsub (acc2.getD (j*(2*n)+k) F64.zero)
              (fmul (acc.getD (j*(2*n)+i) F64.zero)
                (acc2.getD (i*(2*n)+k) F64.zero)))) acc
        else acc) a with hGdef
    have hlenG : G.length = n*(2*n) := by
      rw [hGdef]
      refine Eq.trans (foldl_length_preserved _ ?_ _ a) hlen
      intro b j
      by_cases hj : j ≠ i
      · show (if j ≠ i then _ else b).length = b.length
        rw [if_pos hj]
        exact foldl_length_preserved _ (fun b2 _ => List.length_set b2 _ _) _ b
      · show (if j ≠ i then _ else b).length = b.length
        rw [if_neg hj]
    by_cases hci : c ≠ i
    · rw [if_pos hci]
      have hGci : G.getD (c*(2*n)+i) F64.zero = a.getD (c*(2*n)+i) F64.zero := by
        rw [ih (by omega) c i (by omega) (by omega), if_neg (by rintro ⟨h1, -⟩; omega)]
      have hpass := elimRowPass_getD (2*n) n i c
        (G.getD (c*(2*n)+i) F64.zero) G hlenG hi (by omega) hci 0 (2*n)
        (by omega) r q hr hq
      rw [← List.range_eq_range'] at hpass
      rw [hpass]
      by_cases hrc : r = c
      · rw [if_pos ⟨hrc, by omega, by omega⟩]
        have h1 : G.getD (c*(2*n)+q) F64.zero = a.getD (c*(2*n)+q) F64.zero := by
          rw [ih (by omega) c q (by omega) hq, if_neg (by rintro ⟨h1, -⟩; omega)]
        have h2 : G.getD (i*(2*n)+q) F64.zero = a.getD (i*(2*n)+q) F64.zero := by
          rw [ih (by omega) i q hi hq, if_neg (by rintro ⟨-, h1⟩; exact h1 rfl)]
        rw [h1, h2, hGci, hrc]
        rw [if_pos ⟨by omega, hci⟩]
      · rw [if_neg (by rintro ⟨h1, -, -⟩; exact hrc h1)]
        rw [ih (by omega) r q hr hq]
        by_cases hcond : r < c ∧ r ≠ i
        · rw [if_pos hcond, if_pos ⟨by omega, hcond.2⟩]
        · rw [if_neg hcond, if_neg (by
            rintro ⟨h1, h2⟩
            exact hcond ⟨by omega, h2⟩)]
    · rw [if_neg hci]
      rw [ih (by omega) r q hr hq]
      have hcieq : c = i := by omega
      by_cases hcond : r < c ∧ r ≠ i
      · rw [if_pos hcond, if_pos ⟨by omega, hcond.2⟩]
      · rw [if_neg hcond, if_neg (by
          rintro ⟨h1, h2⟩
          exact hcond ⟨by omega, h2⟩)]

theorem toRows_invScaleRowF (n i : Nat) (a : List F64) (hlen : a.length = n*(2*n))
    (hi : i < n) :
    toRows (2*n) n (invScaleRowF n i a) = specScaleRow (2*n) i (toRows (2*n) n a) := by
  apply list_ext_getD ([] : List F64)
  · rw [toRows_length]
    simp [specScaleRow, toRows_length]
  · intro r hr
    rw [toRows_length] at hr
    rw [toRows_row _ n _ r hr]
    simp only [specScaleRow]
    rw [toRows_length, getD_range_map _ _ _ _ hr]
    by_cases hri : r = i
    · rw [if_pos hri]
      refine range_map_ext F64.zero (2*n) _ _ ?_
      intro k hk
      rw [invScaleRowF_getD n i a hlen hi r k hr hk, if_pos hri]
      rw [rcGet_toRows _ n a i k hi hk, rcGet_toRows _ n a i i hi (by omega)]
    · rw [if_neg hri, toRows_row _ n a r hr]
      refine range_map_ext F64.zero (2*n) _ _ ?_
      intro k hk
      rw [invScaleRowF_getD n i a hlen hi r k hr hk, if_neg hri]

theorem toRows_invElimF (n i : Nat) (a : List F64) (hlen : a.length = n*(2*n))
    (hi : i < n) :
    toRows (2*n) n (invElimF n i a) = specElimAll (2*n) n i (toRows (2*n) n a) := by
  apply list_ext_getD ([] : List F64)
  · rw [toRows_length]
    simp [specElimAll]
  · intro r hr
    rw [toRows_length] at hr
    rw [toRows_row _ n _ r hr]
    simp only [specElimAll]
    rw [getD_range_map _ _ _ _ hr]
    by_cases hri : r = i
    · rw [if_pos hri, toRows_row _ n a i hi, hri]
      refine range_map_ext F64.zero (2*n) _ _ ?_
      intro k hk
      rw [invElimF_getD n i a hlen hi i k hi hk, if_neg (by simp)]
    · rw [if_neg hri]
      refine range_map_ext F64.zero (2*n) _ _ ?_
      intro k hk
      rw [invElimF_getD n i a hlen hi r k hr hk, if_pos hri]
      rw [rcGet_toRows _ n a r k hr hk, rcGet_toRows _ n a r i hr (by omega),
        rcGet_toRows _ n a i k hi hk]

theorem toRows_invAugInit (n : Nat) (data : List F64) :
    toRows (2*n) n (invAugInit n data) = specAugment n (toRows n n data) := by
  apply list_ext_getD ([] : List F64)
  · rw [toRows_length]
    simp [specAugment]
  · intro r hr
    rw [toRows_length] at hr
    rw [toRows_row _ n _ r hr]
    simp only [specAugment]
    rw [getD_range_map _ _ _ _ hr]
    apply list_ext_getD F64.zero
    · rw [length_range_map, List.length_append, length_range_map, length_range_map]
      omega
    · intro k hk
      rw [length_range_map] at hk
      rw [getD_range_map _ _ _ _ hk]
      simp only [invAugInit]
      rw [getD_range_map _ _ _ _ (flatW_lt hr hk)]
      have hn0 : 0 < 2*n := by omega
      have hdiv : (r*(2*n)+k) / (2*n) = r := by
        rw [Nat.mul_comm r (2*n), Nat.mul_add_div hn0, Nat.div_eq_of_lt hk, Nat.add_zero]
      have hmod : (r*(2*n)+k) % (2*n) = k := by
        rw [Nat.mul_comm r (2*n), Nat.mul_add_mod, Nat.mod_eq_of_lt hk]
      rw [show ((r*(2*n)+k) / (2*n)) = r from hdiv, show ((r*(2*n)+k) % (2*n)) = k from hmod]
      by_cases hkn : k < n
      · rw [if_pos hkn]
        rw [List.getD_append _ _ _ _ (by rw [length_range_map]; exact hkn)]
        rw [getD_range_map _ _ _ _ hkn, rcGet_toRows n n data r k hr hkn]
      · rw [if_neg hkn]
        rw [List.getD_append_right _ _ _ _ (by rw [length_range_map]; omega)]
        rw [length_range_map]
        rw [getD_range_map _ _ _ _ (show k - n < n from by omega)]
        by_cases hknr : k = n + r
        · rw [if_pos hknr, if_pos (by omega)]
        · rw [if_neg hknr, if_neg (by omega)]

theorem invLoopF_eq_spec (n : Nat) :
    ∀ steps i aug, i + steps ≤ n → aug.length = n*(2*n) →
      (invLoopF n i steps aug).map (toRows (2*n) n) =
        invSpecLoop n i steps (toRows (2*n) n aug) := by
  intro steps
  induction steps with
  | zero =>
    intro i aug _ _
    rfl
  | succ s ih =>
    intro i aug hin hlen
    have hi : i < n := by omega
    simp only [invLoopF, invSpecLoop]
    rw [← pivotSearchF_eq_spec (2*n) i n i aug hi (by omega)]
    obtain ⟨hip, hpn⟩ := pivotSearchF_mem (2*n) i n i aug hi
    set p := pivotSearchF (2*n) i n i aug with hpdef
    set aug1 := if p ≠ i then swapRowsF (2*n) i p aug else aug with ha1
    have hlen1 : aug1.length = n*(2*n) := by
      rw [ha1]
      by_cases hpi : p ≠ i
      · rw [if_pos hpi, swapRowsF_length, hlen]
      · rw [if_neg hpi, hlen]
    have hswap : (if p ≠ i then specSwapRows (toRows (2*n) n aug) i p
        else toRows (2*n) n aug) = toRows (2*n) n aug1 := by
      rw [ha1]
      by_cases hpi : p ≠ i
      · rw [if_pos hpi, if_pos hpi]
        exact (toRows_swapRowsF (2*n) n i p aug hlen hi hpn).symm
      · rw [if_neg hpi, if_neg hpi]
    rw [hswap]
    rw [show rcGet (toRows (2*n) n aug1) i i = aug1.getD (i*(2*n)+i) F64.zero from
      rcGet_toRows (2*n) n aug1 i i hi (by omega)]
    by_cases hsmall : flt (fabs (aug1.getD (i*(2*n)+i) F64.zero)) tol1em10 = true
    · rw [if_pos hsmall, if_pos hsmall]
      rfl
    · rw [if_neg hsmall, if_neg hsmall]
      have hlen2 : (invScaleRowF n i aug1).length = n*(2*n) := by
        rw [invScaleRowF_length, hlen1]
      rw [← toRows_invScaleRowF n i aug1 hlen1 hi, ← toRows_invElimF n i _ hlen2 hi]
      exact ih (i+1) _ (by omega) (by rw [invElimF_length, hlen2])

/-- C6: `brix_inv` yields an absent result (NULL, without terminating the
process) exactly when the input is non-square or when Gauss-Jordan elimination
with partial pivoting on the row-level augmented `[A | I]` matrix hits a pivot
of magnitude below 1e-10 (`invSpecLoop` returning no value); otherwise it
returns a fresh (`ref_count = 1`) square matrix of the input's size. -/
theorem claim_C6_inv (m : BrixMatrix) :
    (brix_inv m = none ↔
      (m.rows ≠ m.cols ∨
        invSpecLoop m.rows 0 m.rows
          (specAugment m.rows (toRows m.rows m.rows m.data)) = none)) ∧
    (∀ r, brix_inv m = some r →
      r.ref_count = 1 ∧ r.rows = m.rows ∧ r.cols = m.rows ∧
      r.data.length = m.rows * m.rows) := by
  constructor
  · by_cases hne : m.rows ≠ m.cols
    · simp only [brix_inv]
      rw [if_pos hne]
      simp [hne]
    · simp only [brix_inv]
      rw [if_neg hne]
      have hlen0 : (invAugInit m.rows m.data).length = m.rows*(2*m.rows) := by
        simp [invAugInit]
      have heq := invLoopF_eq_spec m.rows m.rows 0 (invAugInit m.rows m.data)
        (by omega) hlen0
      rw [toRows_invAugInit m.rows m.data] at heq
      constructor
      · intro h
        refine Or.inr ?_
        rw [← heq, Option.map_eq_none']
        rw [Option.map_eq_none'] at h
        exact h
      · intro h
        rcases h with h | h
        · exact absurd h hne
        · rw [← heq, Option.map_eq_none'] at h
          rw [Option.map_eq_none']
          exact h
  · intro r h
    simp only [brix_inv] at h
    by_cases hne : m.rows ≠ m.cols
    · rw [if_pos hne] at h
      cases h
    · rw [if_neg hne] at h
      rw [Option.map_eq_some'] at h
      obtain ⟨aug, -, hr⟩ := h
      subst hr
      exact ⟨rfl, rfl, rfl, length_range_map _ _⟩

set_option maxRecDepth 10000 in
/-- Witness for C6: a 2x3 matrix inverts to an absent result (non-square); the
singular matrix [[1,2],[2,4]] inverts to an absent result because the
row-level elimination meets a sub-1e-10 pivot; and the invertible matrix
[[1,2],[3,4]] produces a fresh `ref_count = 1` matrix of its own 2x2 size. -/
theorem claim_C6_inv_witness :
    brix_inv ⟨1, 2, 3, [F64.ofInt 1, F64.ofInt 2, F64.ofInt 3,
      F64.ofInt 4, F64.ofInt 5, F64.ofInt 6]⟩ = none ∧
    brix_inv ⟨1, 2, 2, [F64.ofInt 1, F64.ofInt 2, F64.ofInt 2, F64.ofInt 4]⟩ = none ∧
    ((⟨1, 2, 2, [⟨-4503599627370495, -51⟩, ⟨4503599627370495, -52⟩,
        ⟨6755399441055743, -52⟩, ⟨-9007199254740991, -54⟩]⟩ : BrixMatrix).ref_count = 1 ∧
     (⟨1, 2, 2, [⟨-4503599627370495, -51⟩, ⟨4503599627370495, -52⟩,
        ⟨6755399441055743, -52⟩, ⟨-9007199254740991, -54⟩]⟩ : BrixMatrix).rows = 2 ∧
     (⟨1, 2, 2, [⟨-4503599627370495, -51⟩, ⟨4503599627370495, -52⟩,
        ⟨6755399441055743, -52⟩, ⟨-9007199254740991, -54⟩]⟩ : BrixMatrix).cols = 2 ∧
     (⟨1, 2, 2, [⟨-4503599627370495, -51⟩, ⟨4503599627370495, -52⟩,
        ⟨6755399441055743, -52⟩, ⟨-9007199254740991, -54⟩]⟩ : BrixMatrix).data.length = 2*2) :=
  ⟨(claim_C6_inv ⟨1, 2, 3, [F64.ofInt 1, F64.ofInt 2, F64.ofInt 3,
      F64.ofInt 4, F64.ofInt 5, F64.ofInt 6]⟩).1.mpr (Or.inl (by decide)),
   (claim_C6_inv ⟨1, 2, 2, [F64.ofInt 1, F64.ofInt 2, F64.ofInt 2,
      F64.ofInt 4]⟩).1.mpr (Or.inr (by decide)),
   (claim_C6_inv ⟨1, 2, 2, [F64.ofInt 1, F64.ofInt 2, F64.ofInt 3,
      F64.ofInt 4]⟩).2
     ⟨1, 2, 2, [⟨-4503599627370495, -51⟩, ⟨4503599627370495, -52⟩,
        ⟨6755399441055743, -52⟩, ⟨-9007199254740991, -54⟩]⟩ (by decide)⟩
